import Mathlib

/-!
Verification development for the ywsd routing tree module
(`ywsd/routing_tree.py`): a shallow embedding of the routing data model,
the discovery traversal, the routing compiler
(`YateRoutingGenerationVisitor`) and the orchestrator (`RoutingTree`),
together with theorems settling the frozen claims C1..C10.

Modelling conventions:
  * Extension numbers and extension ids are modelled as naturals (the
    source only compares them for equality and formats them into strings).
  * Python dictionaries (`CallTarget.parameters`, the lateroute cache)
    are modelled as insertion-ordered association lists with
    replace-on-existing-key update, matching `dict` semantics.
  * Recursive tree walks are modelled with an explicit fuel argument;
    exhausted fuel is a distinguished error.  Python runtime exceptions
    (AttributeError, KeyError, recursing into `None`) are modelled as
    values of `PyError` in an `Except` result.
  * The `Extension` / `CallgroupRank` classes live in `ywsd/objects.py`,
    which is not part of the sources; their fields and derived
    predicates (`immediate_forward`, `has_active_group_members`,
    member call types) are modelled from the spec (sections 3 and 4).
-/

set_option autoImplicit false

/-- Extension kinds (spec section 3, `Extension.Type` in `ywsd.objects`). -/
inductive ExtType where
  | SIMPLE
  | GROUP
  | MULTIRING
  | EXTERNAL
  deriving DecidableEq, Repr

/-- Forwarding regimes (spec section 3, `Extension.ForwardingMode`). -/
inductive FwdMode where
  | DISABLED
  | ENABLED
  | ON_BUSY
  deriving DecidableEq, Repr

/-- Callgroup rank modes (`CallgroupRank.Mode` in `ywsd.objects`). -/
inductive RankMode where
  | DROP
  | NEXT
  | PARALLEL
  deriving DecidableEq, Repr

/-- Modelled from the spec: `memberCallType` of a `CallgroupMember`
("enumerated; a subset of values are special and force a specific fork
call-type override", spec section 3).  The concrete enumeration lives in
the missing `ywsd/objects.py`; we model it by its two relevant
behaviours: non-special, or special with a designated fork call type. -/
inductive MemberType where
  | standard
  | special (fork_calltype : String)
  deriving DecidableEq, Repr

/-- The `is_special_calltype` test on member call types. -/
def MemberType.is_special_calltype : MemberType → Bool
  | .standard => false
  | .special _ => true

/-- A cluster node record (`Yate` in `ywsd.objects`): hostname plus the
trunk connection identifier (`voip_listener`). -/
structure Yate where
  hostname : String
  voip_listener : String
  deriving DecidableEq, Repr

/-- Errors of the embedded python code.  `fuel_exhausted` marks exhausted
recursion fuel (a modelling device); the others model runtime exceptions
of the source at the marked program points. -/
inductive PyError where
  /-- Recursion fuel ran out (modelling device, not a python behaviour). -/
  | fuel_exhausted
  /-- Attribute access on `None` (recursing into an absent forwarding extension). -/
  | none_type_error
  /-- `member_route.target.params[...]` at line 254: `CallTarget` has no
  attribute `params` (it defines `parameters`), so this raises AttributeError. -/
  | attribute_error_params
  /-- `self._yates_dict[node.yate_id]` raises KeyError for an unknown node id. -/
  | key_error_yates
  /-- `entry.update(...)` at line 65 where `entry` is a `str` key of the
  cache dict: `str` has no attribute `update`, so this raises AttributeError. -/
  | attribute_error_str_update
  deriving DecidableEq, Repr

/-- Ordered parameter mapping with python-dict update semantics:
replace the value in place if the key exists, else append. -/
def dict_update (ps : List (String × String)) (k v : String) : List (String × String) :=
  match ps with
  | [] => [(k, v)]
  | (k0, v0) :: rest => if k0 = k then (k, v) :: rest else (k0, v0) :: dict_update rest k v

/-- Lookup in an ordered parameter mapping. -/
def dict_lookup (ps : List (String × String)) (k : String) : Option String :=
  match ps with
  | [] => none
  | (k0, v0) :: rest => if k0 = k then some v0 else dict_lookup rest k

/-- Merge a parameter mapping into another (python `dict.update` with a
dict argument), key by key in order. -/
def dict_merge (ps : List (String × String)) (new : List (String × String)) :
    List (String × String) :=
  new.foldl (fun acc kv => dict_update acc kv.1 kv.2) ps

/-- `CallTarget`: a target string plus a string-parameter mapping
(`ywsd/routing_tree.py` lines 149-158). -/
structure CallTarget where
  target : String
  parameters : List (String × String)
  deriving DecidableEq, Repr

/-- The two shapes of an `IntermediateRoutingResult` (`IntermediateRoutingResult.Type`). -/
inductive IRRType where
  | SIMPLE
  | FORK
  deriving DecidableEq, Repr

/-- `IntermediateRoutingResult` (lines 161-183): either SIMPLE wrapping one
target, or FORK with an ordered fork-target sequence plus a synthetic target. -/
structure IntermediateRoutingResult where
  type : IRRType
  target : CallTarget
  fork_targets : List CallTarget
  deriving DecidableEq, Repr

/-- The `IntermediateRoutingResult.__init__` logic: a `fork_targets`
argument that is not `None` makes a FORK; otherwise a SIMPLE with an
empty `fork_targets` list (lines 166-174). -/
def make_intermediate_result (target : CallTarget)
    (fork_targets : Option (List CallTarget)) : IntermediateRoutingResult :=
  match fork_targets with
  | some fts => ⟨IRRType.FORK, target, fts⟩
  | none => ⟨IRRType.SIMPLE, target, []⟩

/-- `is_simple` (line 182). -/
def IntermediateRoutingResult.is_simple (r : IntermediateRoutingResult) : Bool :=
  r.type = IRRType.SIMPLE

/-- An `Extension` object of the discovered routing graph, as the compiler
sees it (modelled from the spec, section 3; the class itself is in the
missing `ywsd/objects.py`).  Fields in order: numeric `id`, extension
number (`extension`), kind, forwarding mode, forwarding delay,
resolved forwarding extension, callgroup ranks
(mode, delay, members as (active, member call type, member extension)),
home node id (`yate_id`) and the optional ringback media reference.
A rank member whose extension was never loaded carries `none`. -/
inductive Extension where
  | mk (id : Nat) (extension : Nat) (type : ExtType) (forwarding_mode : FwdMode)
      (forwarding_delay : Nat) (forwarding_extension : Option Extension)
      (callgroup_ranks : List (RankMode × Nat × List (Bool × MemberType × Option Extension)))
      (yate_id : Nat) (ringback : Option String) : Extension

/-- One rank member as stored on an `Extension`. -/
abbrev MemberT := Bool × MemberType × Option Extension

/-- One callgroup rank as stored on an `Extension`. -/
abbrev RankT := RankMode × Nat × List MemberT

def Extension.id : Extension → Nat
  | .mk i _ _ _ _ _ _ _ _ => i

def Extension.extension : Extension → Nat
  | .mk _ e _ _ _ _ _ _ _ => e

def Extension.type : Extension → ExtType
  | .mk _ _ t _ _ _ _ _ _ => t

def Extension.forwarding_mode : Extension → FwdMode
  | .mk _ _ _ fm _ _ _ _ _ => fm

def Extension.forwarding_delay : Extension → Nat
  | .mk _ _ _ _ fd _ _ _ _ => fd

def Extension.forwarding_extension : Extension → Option Extension
  | .mk _ _ _ _ _ fwd _ _ _ => fwd

def Extension.callgroup_ranks : Extension → List RankT
  | .mk _ _ _ _ _ _ rks _ _ => rks

def Extension.yate_id : Extension → Nat
  | .mk _ _ _ _ _ _ _ y _ => y

def Extension.ringback : Extension → Option String
  | .mk _ _ _ _ _ _ _ _ rb => rb

/-- Modelled from the spec: derived predicate `immediate_forward` =
"forwardingMode is ENABLED and delay is 0" (spec section 3). -/
def Extension.immediate_forward (n : Extension) : Bool :=
  decide (n.forwarding_mode = FwdMode.ENABLED) && decide (n.forwarding_delay = 0)

/-- Modelled from the spec: derived predicate `has_active_group_members` =
"any member across any rank with active=true" (spec section 3). -/
def Extension.has_active_group_members (n : Extension) : Bool :=
  n.callgroup_ranks.any (fun rk => rk.2.2.any (fun m => m.1))

/-- The visitor context: local yate id, the yate dictionary and the
per-call session identifier (`uuid.uuid4().hex`, injected here as an
explicit parameter). -/
structure VisitorCtx where
  local_yate_id : Nat
  yates_dict : Nat → Option Yate
  session_id : String

/-- The deferred-result cache (`_lateroute_cache`), an insertion-ordered
dict from label strings to intermediate results. -/
abbrev Cache := List (String × IntermediateRoutingResult)

/-- Python dict assignment `cache[k] = v`. -/
def cache_insert (cache : Cache) (k : String) (v : IntermediateRoutingResult) : Cache :=
  match cache with
  | [] => [(k, v)]
  | (k0, v0) :: rest => if k0 = k then (k, v) :: rest else (k0, v0) :: cache_insert rest k v

/-- `_make_calltarget` (lines 200-205): build a target and stamp the
default parameter `x_eventphone_id` with the session id. -/
def make_calltarget (ctx : VisitorCtx) (target : String)
    (parameters : List (String × String)) : CallTarget :=
  ⟨target, dict_update parameters "x_eventphone_id" ctx.session_id⟩

/-- `_cache_intermediate_result` (lines 207-209): cache non-simple results
under their own synthetic target string. -/
def cache_intermediate_result (cache : Cache) (r : IntermediateRoutingResult) : Cache :=
  if r.type = IRRType.SIMPLE then cache else cache_insert cache r.target.target r

/-- `generate_node_route_string` (lines 313-315). -/
def generate_node_route_string (ctx : VisitorCtx) (path : List Nat) : String :=
  "stage1-" ++ ctx.session_id ++ "-" ++ String.intercalate "-" (path.map toString)

/-- `generate_deferred_routestring` (lines 310-311). -/
def generate_deferred_routestring (ctx : VisitorCtx) (path : List Nat) : String :=
  "lateroute/" ++ generate_node_route_string ctx path

/-- `generate_simple_routing_target` (lines 302-308): a local extension
gets a `lateroute/stage2-` reference, a remote one a direct sip URI with
the remote node's trunk connection id. -/
def generate_simple_routing_target (ctx : VisitorCtx) (node : Extension) :
    Except PyError CallTarget :=
  if node.yate_id = ctx.local_yate_id then
    .ok (make_calltarget ctx ("lateroute/stage2-" ++ toString node.extension) [])
  else
    match ctx.yates_dict node.yate_id with
    | none => .error .key_error_yates
    | some y =>
        .ok (make_calltarget ctx
          ("sip/sip:" ++ toString node.extension ++ "@" ++ y.hostname)
          [("oconnection_id", y.voip_listener)])

/-- `node_has_simple_routing` (lines 275-300), with fuel for the
immediate-forward recursion.  `none` models either exhausted fuel or the
python crash of recursing into an absent forwarding extension. -/
def node_has_simple_routing : Nat → Extension → Option Bool
  | 0, _ => none
  | fuel + 1, n =>
    if n.type = ExtType.EXTERNAL then some true
    else if n.immediate_forward then
      match n.forwarding_extension with
      | some f => node_has_simple_routing fuel f
      | none => none
    else if n.type = ExtType.SIMPLE then
      some (decide (n.forwarding_mode = FwdMode.DISABLED))
    else if n.type = ExtType.MULTIRING then
      if n.has_active_group_members then some false
      else some (decide (n.forwarding_mode = FwdMode.DISABLED))
    else some false

/-- The member loop of `_visit_for_route_calculation` (lines 248-257):
skip inactive members, recursively route active ones, raise AttributeError
for special call types (the `params` typo at line 254), append the member
target and cache non-simple member results.  `visit_child` is the
recursive visit at the already-extended path. -/
def route_members_loop
    (visit_child : Extension → Cache → Except PyError (IntermediateRoutingResult × Cache)) :
    List MemberT → List CallTarget → Cache →
      Except PyError (List CallTarget × Cache)
  | [], ft, cache => .ok (ft, cache)
  | (active, mty, mext) :: rest, ft, cache =>
    if active then
      match mext with
      | none => .error .none_type_error
      | some e =>
        match visit_child e cache with
        | .error err => .error err
        | .ok (mr, cache1) =>
          if mty.is_special_calltype then .error .attribute_error_params
          else
            route_members_loop visit_child rest (ft ++ [mr.target])
              (cache_intermediate_result cache1 mr)
    else
      route_members_loop visit_child rest ft cache

/-- The rank loop of `_visit_for_route_calculation` (lines 232-257):
before every rank once `fork_targets` is non-empty, compute the separator
from that rank's mode, accumulate DROP/NEXT delays, and break out of the
loop (before appending the separator) once the accumulated delay reaches
the node's forwarding delay. -/
def route_ranks_loop
    (visit_child : Extension → Cache → Except PyError (IntermediateRoutingResult × Cache))
    (fd : Nat) :
    List RankT → List CallTarget → Nat → Cache →
      Except PyError (List CallTarget × Nat × Cache)
  | [], ft, acc, cache => .ok (ft, acc, cache)
  | (mode, delay, members) :: rest, ft, acc, cache =>
    if ft.isEmpty then
      match route_members_loop visit_child members ft cache with
      | .error e => .error e
      | .ok (ft1, cache1) => route_ranks_loop visit_child fd rest ft1 acc cache1
    else
      let sep : String :=
        match mode with
        | RankMode.DROP => "|drop=" ++ toString delay
        | RankMode.NEXT => "|next=" ++ toString delay
        | RankMode.PARALLEL => "|"
      let acc1 : Nat :=
        match mode with
        | RankMode.DROP => acc + delay
        | RankMode.NEXT => acc + delay
        | RankMode.PARALLEL => acc
      if fd ≤ acc1 then .ok (ft, acc1, cache)
      else
        match route_members_loop visit_child members (ft ++ [CallTarget.mk sep []]) cache with
        | .error e => .error e
        | .ok (ft1, cache1) => route_ranks_loop visit_child fd rest ft1 acc1 cache1

/-- `_visit_for_route_calculation` (lines 214-273): immediate-forward
pass-through, simple-routing short cut, otherwise fork compilation: the
rank loop, the MULTIRING self-address prepend, the trailing delayed
forward, and the synthetic deferred-route target. -/
def visit_for_route_calculation (ctx : VisitorCtx) :
    Nat → Extension → List Nat → Cache →
      Except PyError (IntermediateRoutingResult × Cache)
  | 0, _, _, _ => .error .fuel_exhausted
  | fuel + 1, n, path, cache =>
    let local_path := path ++ [n.id]
    if n.immediate_forward then
      match n.forwarding_extension with
      | none => .error .none_type_error
      | some f => visit_for_route_calculation ctx fuel f local_path cache
    else
      if node_has_simple_routing (fuel + 1) n = some true then
        match generate_simple_routing_target ctx n with
        | .error e => .error e
        | .ok t => .ok (make_intermediate_result t none, cache)
      else
        match route_ranks_loop
            (fun e c => visit_for_route_calculation ctx fuel e local_path c)
            n.forwarding_delay n.callgroup_ranks [] 0 cache with
        | .error e => .error e
        | .ok (ft, acc, cache1) =>
          match (if n.type = ExtType.MULTIRING then
                   (generate_simple_routing_target ctx n).map (fun t => t :: ft)
                 else .ok ft) with
          | .error e => .error e
          | .ok ft1 =>
            if n.forwarding_mode = FwdMode.ENABLED then
              match n.forwarding_extension with
              | none => .error .none_type_error
              | some f =>
                match visit_for_route_calculation ctx fuel f local_path cache1 with
                | .error e => .error e
                | .ok (fr, cache2) =>
                  let fwd_delay : Int := (n.forwarding_delay : Int) - (acc : Int)
                  .ok (make_intermediate_result
                        (make_calltarget ctx (generate_deferred_routestring ctx local_path) [])
                        (some (ft1 ++ [CallTarget.mk ("|drop=" ++ toString fwd_delay) [], fr.target])),
                      cache_intermediate_result cache2 fr)
            else
              .ok (make_intermediate_result
                    (make_calltarget ctx (generate_deferred_routestring ctx local_path) [])
                    (some ft1), cache1)

/-- `calculate_routing` of the visitor (lines 211-212): visit the routing
tree's target with an empty path. -/
def visitor_calculate_routing (ctx : VisitorCtx) (fuel : Nat) (target : Extension) :
    Except PyError (IntermediateRoutingResult × Cache) :=
  visit_for_route_calculation ctx fuel target [] []

/-- Settings as the orchestrator uses them: the ringback top directory and
the external media-storage existence check (`os.path.isfile`, an external
interface per spec section 6, supplied as a predicate). -/
structure Settings where
  ringback_top_directory : String
  is_file : String → Bool

/-- `_make_ringback_target` (lines 67-75).  Note that it does not go
through `_make_calltarget`, so no `x_eventphone_id` parameter is stamped. -/
def make_ringback_target (path : String) : CallTarget :=
  ⟨"wave/play/" ++ path,
    [("fork.calltype", "persistent"),
     ("fork.autoring", "true"),
     ("fork.automessage", "call.progress")]⟩

/-- `_provide_ringback` (lines 40-55): if the target extension names a
ringback file that exists, wrap a SIMPLE result into a two-element FORK
(media first) or prepend the media target to an existing FORK. -/
def provide_ringback (settings : Settings) (ringback : Option String)
    (r : IntermediateRoutingResult) : IntermediateRoutingResult :=
  match ringback with
  | none => r
  | some rb =>
    let ringback_path := settings.ringback_top_directory ++ "/" ++ rb
    if settings.is_file ringback_path then
      if r.is_simple then
        ⟨IRRType.FORK, CallTarget.mk "fork" r.target.parameters,
          [make_ringback_target ringback_path, r.target]⟩
      else
        ⟨r.type, r.target, make_ringback_target ringback_path :: r.fork_targets⟩
    else r

/-- `_calculate_eventphone_parameters` (lines 57-59): currently empty. -/
def calculate_eventphone_parameters : List (String × String) := []

/-- `_populate_eventphone_parameters` (lines 61-65): merge the
cross-cutting parameters into the top-level target's parameters, then
iterate the cache.  Iterating a python dict yields its keys (strings),
and `entry.update(...)` on a `str` raises AttributeError, so the loop
crashes on the first key whenever the cache is non-empty. -/
def populate_eventphone_parameters (r : IntermediateRoutingResult) (cache : Cache) :
    Except PyError (IntermediateRoutingResult × Cache) :=
  let ep := calculate_eventphone_parameters
  let r1 : IntermediateRoutingResult :=
    { r with target := { r.target with parameters := dict_merge r.target.parameters ep } }
  match cache with
  | [] => .ok (r1, cache)
  | _ :: _ => .error .attribute_error_str_update

/-- `RoutingTree.calculate_routing` (lines 26-32) after discovery: run the
compiler on the target extension, inject ringback, stamp the cross-cutting
parameters, and return the result plus the deferred-result cache. -/
def calculate_routing (ctx : VisitorCtx) (settings : Settings) (fuel : Nat)
    (target : Extension) : Except PyError (IntermediateRoutingResult × Cache) :=
  match visitor_calculate_routing ctx fuel target with
  | .error e => .error e
  | .ok (r, cache) => populate_eventphone_parameters (provide_ringback settings target.ringback r) cache

/-! ## Discovery traversal

The discovery visitor (`RoutingTreeDiscoveryVisitor`, lines 82-146) walks
the extension directory starting at the target, lazily materializing a
tree of freshly loaded `Extension` objects.  We model the directory as a
total map from extension numbers to records (`NotFound` is fatal and out
of scope, spec section 7), and the materialized, possibly cycle-pruned
object tree as `DNode`. -/

/-- One extension record of the external directory, before discovery
resolves anything: extension number, kind, forwarding mode and delay,
the forwarding target's extension number, and the callgroup ranks as
lists of members (active flag, member extension number). -/
structure DbExt where
  ext : Nat
  type : ExtType
  forwarding_mode : FwdMode
  forwarding_delay : Nat
  fwd_target : Option Nat
  ranks : List (List (Bool × Nat))
  deriving DecidableEq, Repr

/-- The external directory (spec section 6), modelled total. -/
abbrev Db := Nat → DbExt

/-- Discovery log entries; the source logs formatted strings, we keep the
structured content (which node, which path). -/
inductive LogEntry where
  | depth_limit (ext : Nat)
  | fwd_pruned (fwd_ext : Nat) (path : List Nat)
  | member_pruned (member_ext : Nat) (path : List Nat)
  deriving DecidableEq, Repr

/-- The mutable visitor state: `_failed`, `_pruned`, `_discovery_log`. -/
structure DiscoState where
  failed : Bool
  pruned : Bool
  log : List LogEntry
  deriving DecidableEq, Repr

/-- The materialized post-discovery object tree: extension number, the
(possibly pruned-to-DISABLED) forwarding mode, the resolved forwarding
child if discovery recursed into it, and the populated ranks with the
(possibly pruned-to-false) member active flags and member subtrees. -/
inductive DNode where
  | mk (ext : Nat) (forwarding_mode : FwdMode) (fwd : Option DNode)
      (ranks : List (List (Bool × Nat × Option DNode))) : DNode

def DNode.ext : DNode → Nat
  | .mk e _ _ _ => e

def DNode.forwarding_mode : DNode → FwdMode
  | .mk _ fm _ _ => fm

def DNode.fwd : DNode → Option DNode
  | .mk _ _ f _ => f

def DNode.ranks : DNode → List (List (Bool × Nat × Option DNode))
  | .mk _ _ _ rks => rks

/-- The member loop of `RoutingTreeDiscoveryVisitor._visit` (lines
133-146): inactive members are skipped (materialized inactive, child not
loaded); an active member whose extension number is already on the path
is pruned (`pruned := true`, log, `active := false`); otherwise discovery
recurses into it. -/
def discovery_members_loop (visit_child : DbExt → DiscoState → DNode × DiscoState)
    (db : Db) (path_local : List Nat) :
    List (Bool × Nat) → DiscoState → List (Bool × Nat × Option DNode) × DiscoState
  | [], st => ([], st)
  | (active, mext) :: rest, st =>
    let f := db mext
    if active then
      if f.ext ∈ path_local then
        let st1 : DiscoState :=
          { st with pruned := true, log := st.log ++ [LogEntry.member_pruned f.ext path_local] }
        let (ms, st2) := discovery_members_loop visit_child db path_local rest st1
        ((false, f.ext, none) :: ms, st2)
      else
        let (child, st1) := visit_child f st
        let (ms, st2) := discovery_members_loop visit_child db path_local rest st1
        ((true, f.ext, some child) :: ms, st2)
    else
      let (ms, st1) := discovery_members_loop visit_child db path_local rest st
      ((false, f.ext, none) :: ms, st1)

/-- The rank loop around `discovery_members_loop`. -/
def discovery_ranks_loop (visit_child : DbExt → DiscoState → DNode × DiscoState)
    (db : Db) (path_local : List Nat) :
    List (List (Bool × Nat)) → DiscoState →
      List (List (Bool × Nat × Option DNode)) × DiscoState
  | [], st => ([], st)
  | rk :: rest, st =>
    let (ms, st1) := discovery_members_loop visit_child db path_local rk st
    let (rs, st2) := discovery_ranks_loop visit_child db path_local rest st1
    (ms :: rs, st2)

/-- `RoutingTreeDiscoveryVisitor._visit` (lines 108-146).  The fuel is
`max_depth - depth`, so fuel 0 is exactly the `depth >= self._max_depth`
cut: record failure, log, and stop descending (nothing of this node is
resolved or populated).  Otherwise: resolve the forwarding target when
the node is not EXTERNAL and forwarding is not DISABLED; populate ranks
for GROUP/MULTIRING unless an immediate forward masks them; prune a
forwarding cycle by disabling this node's forwarding mode; then walk the
members. -/
def discovery_visit (db : Db) : Nat → DbExt → List Nat → DiscoState → DNode × DiscoState
  | 0, n, _, st =>
    (DNode.mk n.ext n.forwarding_mode none [],
      { st with failed := true, log := st.log ++ [LogEntry.depth_limit n.ext] })
  | fuel + 1, n, path, st =>
    let path_local := path ++ [n.ext]
    let fwd_loaded : Option DbExt :=
      if n.type ≠ ExtType.EXTERNAL ∧ n.forwarding_mode ≠ FwdMode.DISABLED then
        n.fwd_target.map db
      else none
    let ranks_loaded : List (List (Bool × Nat)) :=
      if (n.type = ExtType.GROUP ∨ n.type = ExtType.MULTIRING) ∧
          (n.forwarding_mode ≠ FwdMode.ENABLED ∨ 0 < n.forwarding_delay) then
        n.ranks
      else []
    match fwd_loaded with
    | some f =>
      if f.ext ∈ path_local then
        let st1 : DiscoState :=
          { st with pruned := true, log := st.log ++ [LogEntry.fwd_pruned f.ext path_local] }
        let (rks, st2) :=
          discovery_ranks_loop (fun m s => discovery_visit db fuel m path_local s)
            db path_local ranks_loaded st1
        (DNode.mk n.ext FwdMode.DISABLED none rks, st2)
      else
        let (child, st1) := discovery_visit db fuel f path_local st
        let (rks, st2) :=
          discovery_ranks_loop (fun m s => discovery_visit db fuel m path_local s)
            db path_local ranks_loaded st1
        (DNode.mk n.ext n.forwarding_mode (some child) rks, st2)
    | none =>
      let (rks, st1) :=
        discovery_ranks_loop (fun m s => discovery_visit db fuel m path_local s)
          db path_local ranks_loaded st
      (DNode.mk n.ext n.forwarding_mode none rks, st1)

/-- `discover_tree` (lines 105-106): visit the root at depth 0 with the
path seeded by the excluded targets (the original caller), starting from
a clean state. -/
def discover_tree (db : Db) (root : DbExt) (excluded : List Nat) (max_depth : Nat) :
    DNode × DiscoState :=
  discovery_visit db max_depth root excluded ⟨false, false, []⟩

/-- The prune-free unfolding of the directory from a node: what discovery
materializes when it never meets a cycle — every flag kept as loaded. -/
def discovery_unfold_members (child : DbExt → DNode) (db : Db) :
    List (Bool × Nat) → List (Bool × Nat × Option DNode)
  | [] => []
  | (active, mext) :: rest =>
    let f := db mext
    (active, f.ext, if active then some (child f) else none) ::
      discovery_unfold_members child db rest

/-- The prune-free unfolding of a node to the given depth (fuel), with the
same load conditions and depth cut as `discovery_visit`. -/
def discovery_unfold (db : Db) : Nat → DbExt → DNode
  | 0, n => DNode.mk n.ext n.forwarding_mode none []
  | fuel + 1, n =>
    let fwd_loaded : Option DbExt :=
      if n.type ≠ ExtType.EXTERNAL ∧ n.forwarding_mode ≠ FwdMode.DISABLED then
        n.fwd_target.map db
      else none
    let ranks_loaded : List (List (Bool × Nat)) :=
      if (n.type = ExtType.GROUP ∨ n.type = ExtType.MULTIRING) ∧
          (n.forwarding_mode ≠ FwdMode.ENABLED ∨ 0 < n.forwarding_delay) then
        n.ranks
      else []
    DNode.mk n.ext n.forwarding_mode (fwd_loaded.map (discovery_unfold db fuel))
      ((ranks_loaded.map (discovery_unfold_members (discovery_unfold db fuel) db)))

/-- Cycle-freeness of the directory seen from a node, relative to a path:
no edge that discovery would follow (within the given depth) leads back
to an extension already on the path — the path is seeded with the
excluded caller, so a forward back to the caller also counts as a cycle
of the routing attempt. -/
def no_prune_members (child_ok : DbExt → Bool) (db : Db) (path_local : List Nat) :
    List (Bool × Nat) → Bool
  | [] => true
  | (active, mext) :: rest =>
    let f := db mext
    (if active then decide (f.ext ∉ path_local) && child_ok f else true) &&
      no_prune_members child_ok db path_local rest

/-- Cycle-freeness of the whole region discovery explores from `n` with
the given fuel and path: the formal rendering of "a graph already free of
cycles" for this routing attempt. -/
def no_prune (db : Db) : Nat → DbExt → List Nat → Bool
  | 0, _, _ => true
  | fuel + 1, n, path =>
    let path_local := path ++ [n.ext]
    let fwd_loaded : Option DbExt :=
      if n.type ≠ ExtType.EXTERNAL ∧ n.forwarding_mode ≠ FwdMode.DISABLED then
        n.fwd_target.map db
      else none
    let ranks_loaded : List (List (Bool × Nat)) :=
      if (n.type = ExtType.GROUP ∨ n.type = ExtType.MULTIRING) ∧
          (n.forwarding_mode ≠ FwdMode.ENABLED ∨ 0 < n.forwarding_delay) then
        n.ranks
      else []
    (match fwd_loaded with
     | some f => decide (f.ext ∉ path_local) && no_prune db fuel f path_local
     | none => true) &&
      ranks_loaded.all
        (no_prune_members (fun m => no_prune db fuel m path_local) db path_local)

/-- Root-to-node paths (as extension-number sequences) of a materialized
discovery tree, following the resolved forwarding child and the loaded
member subtrees. -/
inductive NPath : DNode → List Nat → Prop where
  | here (t : DNode) : NPath t [t.ext]
  | via_fwd (t : DNode) (c : DNode) (l : List Nat) :
      t.fwd = some c → NPath c l → NPath t (t.ext :: l)
  | via_member (t : DNode) (rk : List (Bool × Nat × Option DNode))
      (a : Bool) (me : Nat) (c : DNode) (l : List Nat) :
      rk ∈ t.ranks → (a, me, some c) ∈ rk → NPath c l → NPath t (t.ext :: l)

/-! ## Concrete fixtures used by witnesses and counterexamples -/

/-- A concrete visitor context: local yate 1, empty yate dictionary,
session id "sid". -/
def ctx0 : VisitorCtx := ⟨1, fun _ => none, "sid"⟩

/-- A simple local extension (number 101), forwarding disabled. -/
def extA : Extension := .mk 11 101 .SIMPLE .DISABLED 0 none [] 1 none

/-- A simple local extension (number 102). -/
def extB : Extension := .mk 12 102 .SIMPLE .DISABLED 0 none [] 1 none

/-- A simple local extension (number 103). -/
def extC : Extension := .mk 13 103 .SIMPLE .DISABLED 0 none [] 1 none

/-- The routed target of `extA` under `ctx0`. -/
def tgtA : CallTarget := ⟨"lateroute/stage2-101", [("x_eventphone_id", "sid")]⟩

/-- The routed target of `extB` under `ctx0`. -/
def tgtB : CallTarget := ⟨"lateroute/stage2-102", [("x_eventphone_id", "sid")]⟩

/-- The routed target of `extC` under `ctx0`. -/
def tgtC : CallTarget := ⟨"lateroute/stage2-103", [("x_eventphone_id", "sid")]⟩

/-- The C1 scenario: a GROUP extension with forwarding DISABLED (stored
delay `d`) and ranks [DROP(delay=5, members=[A]), PARALLEL(members=[B, C])],
all members active, simple and local. -/
def c1Node (d : Nat) : Extension :=
  .mk 1 100 .GROUP .DISABLED d none
    [(.DROP, 5, [(true, .standard, some extA)]),
     (.PARALLEL, 0, [(true, .standard, some extB), (true, .standard, some extC)])]
    1 none

/-- A GROUP with one active member of a special member call type. -/
def c3Node : Extension :=
  .mk 1 100 .GROUP .DISABLED 0 none
    [(.DROP, 5, [(true, .special "callonly", some extA)])] 1 none

/-- A GROUP with no ranks at all, forwarding disabled. -/
def c9Node : Extension := .mk 1 100 .GROUP .DISABLED 0 none [] 1 none

/-- An inner GROUP whose compilation is itself a FORK (member `extA`). -/
def g2 : Extension :=
  .mk 2 200 .GROUP .DISABLED 0 none [(.PARALLEL, 0, [(true, .standard, some extA)])] 1 none

/-- An outer GROUP whose single member is the inner GROUP `g2`, so the
member's sub-result is a FORK and lands in the deferred-result cache. -/
def g1 : Extension :=
  .mk 1 100 .GROUP .DISABLED 0 none [(.PARALLEL, 0, [(true, .standard, some g2)])] 1 none

/-- Concrete settings: ringback files live under "rb" and every path
exists on storage. -/
def settings0 : Settings := ⟨"rb", fun _ => true⟩

/-- A simple target extension with a configured ringback file. -/
def rbNode : Extension := .mk 5 500 .SIMPLE .DISABLED 0 none [] 1 (some "ring.wav")

/-- The ringback media-play target materialized for `rbNode` under
`settings0`. -/
def rbTarget : CallTarget :=
  ⟨"wave/play/rb/ring.wav",
    [("fork.calltype", "persistent"), ("fork.autoring", "true"),
     ("fork.automessage", "call.progress")]⟩

/-! ## C1: fork sequence of the two-rank GROUP scenario -/

/-- C1 (corrected): for the GROUP scenario with ranks
[DROP(delay=5, members=[A]), PARALLEL(members=[B, C])] and forwarding
DISABLED with stored delay `d`, the compiled fork sequence is
`[A, "|", B, C]` when `d > 0` — the separator before the second rank is
encoded from that rank's own mode (PARALLEL gives the bare separator),
not from the preceding DROP rank — and just `[A]` when `d = 0`, because
the cutoff check `accumulated_delay >= node.forwarding_delay` (line 243)
runs even though forwarding is DISABLED and `0 >= 0` breaks the loop at
the second rank.  In neither case is the claimed sequence
`[A, "|drop=5", B, C]` produced. -/
theorem c1_group_fork_sequence (d : Nat) :
    visit_for_route_calculation ctx0 2 (c1Node d) [] [] =
      .ok (⟨IRRType.FORK, ⟨"lateroute/stage1-sid-1", [("x_eventphone_id", "sid")]⟩,
            if d = 0 then [tgtA] else [tgtA, ⟨"|", []⟩, tgtB, tgtC]⟩, []) := by
  cases d with
  | zero => rfl
  | succ d =>
    simp [visit_for_route_calculation, route_ranks_loop, route_members_loop,
      node_has_simple_routing, generate_simple_routing_target, make_calltarget,
      generate_deferred_routestring, generate_node_route_string, make_intermediate_result,
      cache_intermediate_result, c1Node, extA, extB, extC, ctx0, tgtA, tgtB, tgtC,
      Extension.immediate_forward, Extension.forwarding_mode, Extension.forwarding_delay,
      Extension.forwarding_extension, Extension.callgroup_ranks, Extension.type,
      Extension.id, Extension.extension, Extension.yate_id,
      Extension.has_active_group_members, MemberType.is_special_calltype, dict_update]
    decide

/-- C1 counterexample: at stored forwarding delay 30 the compiled fork
sequence is `[A, "|", B, C]`, which differs from the claimed
`[A, "|drop=5", B, C]`. -/
theorem c1_claimed_sequence_refuted :
    visit_for_route_calculation ctx0 2 (c1Node 30) [] [] =
      .ok (⟨IRRType.FORK, ⟨"lateroute/stage1-sid-1", [("x_eventphone_id", "sid")]⟩,
            [tgtA, ⟨"|", []⟩, tgtB, tgtC]⟩, []) ∧
    ([tgtA, ⟨"|", []⟩, tgtB, tgtC] : List CallTarget) ≠
      [tgtA, ⟨"|drop=5", []⟩, tgtB, tgtC] :=
  ⟨rfl, by decide⟩

/-! ## C3: special member call types crash fork compilation -/

/-- C3: compiling a GROUP with one active member of a special member call
type does not complete — line 254 reads `member_route.target.params`, but
`CallTarget` defines only `parameters`, so the attribute access raises
AttributeError before any fork call-type override could be written. -/
theorem c3_special_calltype_crashes :
    visit_for_route_calculation ctx0 2 c3Node [] [] =
      .error PyError.attribute_error_params := rfl

/-! ## C4: parameter stamping crashes on a non-empty cache -/

/-- C4: with the nested-group target `g1` the compiler's deferred-result
cache is non-empty, and the orchestrator's parameter-stamping step then
crashes: `for entry in self.new_routing_cache_content` iterates the dict
keys (strings), and `entry.update(...)` on a `str` raises AttributeError
(lines 64-65).  Stamping therefore does not succeed for non-empty caches. -/
theorem c4_stamping_crashes_on_nonempty_cache :
    calculate_routing ctx0 settings0 3 g1 =
      .error PyError.attribute_error_str_update := rfl

/-! ## C5: the simple-routing classification -/

/-- C5: `node_has_simple_routing` classifies extensions exactly as
claimed: EXTERNAL is always simple; a (non-EXTERNAL) immediate-forward
node is classified by recursing into its forwarding target; SIMPLE kind
is simple iff forwarding is DISABLED; MULTIRING kind is simple iff it has
no active group members and forwarding is DISABLED; GROUP kind is never
simple.  The fuel argument only feeds the immediate-forward recursion. -/
theorem c5_simple_routing_classification (fuel : Nat) (n : Extension) :
    (n.type = ExtType.EXTERNAL → node_has_simple_routing (fuel + 1) n = some true) ∧
    (∀ f : Extension, n.type ≠ ExtType.EXTERNAL → n.immediate_forward = true →
      n.forwarding_extension = some f →
      node_has_simple_routing (fuel + 1) n = node_has_simple_routing fuel f) ∧
    (n.immediate_forward = false → n.type = ExtType.SIMPLE →
      node_has_simple_routing (fuel + 1) n =
        some (decide (n.forwarding_mode = FwdMode.DISABLED))) ∧
    (n.immediate_forward = false → n.type = ExtType.MULTIRING →
      node_has_simple_routing (fuel + 1) n =
        some (!n.has_active_group_members &&
          decide (n.forwarding_mode = FwdMode.DISABLED))) ∧
    (n.immediate_forward = false → n.type = ExtType.GROUP →
      node_has_simple_routing (fuel + 1) n = some false) := by
  refine ⟨fun h => ?_, fun f hx hi hf => ?_, fun hi h => ?_, fun hi h => ?_, fun hi h => ?_⟩
  · simp [node_has_simple_routing, h]
  · simp [node_has_simple_routing, hx, hi, hf]
  · cases hb : n.has_active_group_members <;>
      simp [node_has_simple_routing, h, hi]
  · cases hb : n.has_active_group_members <;>
      simp [node_has_simple_routing, h, hi, hb]
  · simp [node_has_simple_routing, h, hi]

/-- Witness for C5: the classification applied to concrete extensions of
each kind. -/
theorem c5_simple_routing_classification_witness :
    node_has_simple_routing 1 (Extension.mk 7 700 .EXTERNAL .DISABLED 0 none [] 1 none) =
      some true ∧
    node_has_simple_routing 2 (Extension.mk 8 800 .SIMPLE .ENABLED 0 (some extA) [] 1 none) =
      node_has_simple_routing 1 extA ∧
    node_has_simple_routing 1 extA = some true ∧
    node_has_simple_routing 1 (Extension.mk 9 900 .SIMPLE .ENABLED 10 (some extA) [] 1 none) =
      some false ∧
    node_has_simple_routing 1
        (Extension.mk 4 400 .MULTIRING .DISABLED 0 none
          [(.PARALLEL, 0, [(true, .standard, some extA)])] 1 none) =
      some false ∧
    node_has_simple_routing 1 c9Node = some false := by
  refine ⟨(c5_simple_routing_classification 0 _).1 (by decide), ?_, by decide, ?_, ?_, ?_⟩
  · exact (c5_simple_routing_classification 1 _).2.1 extA (by decide) (by decide) rfl
  · exact ((c5_simple_routing_classification 0 _).2.2.1 (by decide) (by decide)).trans
      (by decide)
  · exact ((c5_simple_routing_classification 0 _).2.2.2.1 (by decide) (by decide)).trans
      (by decide)
  · exact (c5_simple_routing_classification 0 _).2.2.2.2 (by decide) (by decide)

/-! ## C9 counterexample evaluation -/

/-- C9 counterexample: a GROUP extension with no ranks and forwarding
disabled is compiled to a materialized FORK whose `fork_targets` sequence
is empty, refuting the invariant that a FORK's fork-target sequence is
never empty. -/
theorem c9_empty_fork_materialized :
    visit_for_route_calculation ctx0 1 c9Node [] [] =
      .ok (⟨IRRType.FORK, ⟨"lateroute/stage1-sid-1", [("x_eventphone_id", "sid")]⟩, []⟩, []) ∧
    (IRRType.FORK ≠ IRRType.SIMPLE ∧ ([] : List CallTarget).length = 0) :=
  ⟨rfl, by decide, rfl⟩

/-! ## Shared invariants of the compiler outputs -/

/-- All call targets materialized inside an intermediate result: the
(synthetic or simple) top target plus the fork targets. -/
def irr_targets (r : IntermediateRoutingResult) : List CallTarget :=
  r.target :: r.fork_targets

/-- A pseudo-target of the fork language: its target string starts with
the separator character. -/
def is_pseudo_target (t : CallTarget) : Prop :=
  t.target.data.head? = some (Char.ofNat 124)

instance (t : CallTarget) : Decidable (is_pseudo_target t) := by
  unfold is_pseudo_target
  infer_instance

/-- A target is session-stamped unless it is a fork separator
pseudo-target: it carries `x_eventphone_id = sid`. -/
def target_ok (sid : String) (t : CallTarget) : Prop :=
  is_pseudo_target t ∨ dict_lookup t.parameters "x_eventphone_id" = some sid

/-- Every target of a result is session-stamped or a pseudo-target. -/
def irr_ok (sid : String) (r : IntermediateRoutingResult) : Prop :=
  ∀ t ∈ irr_targets r, target_ok sid t

/-- Every cached result only holds session-stamped or pseudo targets. -/
def cache_ok (sid : String) (cache : Cache) : Prop :=
  ∀ kv ∈ cache, irr_ok sid kv.2

/-- A well-formed cache entry (claim C10): the key is the cached result's
own synthetic target string, the result is a FORK, and the key has the
deferred-route label form. -/
def cache_entry_ok (ctx : VisitorCtx) (kv : String × IntermediateRoutingResult) : Prop :=
  kv.1 = kv.2.target.target ∧ kv.2.type = IRRType.FORK ∧
    ∃ p, kv.1 = generate_deferred_routestring ctx p

/-- All entries of the cache are well-formed. -/
def cache_wf (ctx : VisitorCtx) (cache : Cache) : Prop :=
  ∀ kv ∈ cache, cache_entry_ok ctx kv

/-- Shape of every result the visitor returns: SIMPLE, or a result whose
synthetic target is the session-stamped deferred-route target of some path. -/
def result_shape (ctx : VisitorCtx) (r : IntermediateRoutingResult) : Prop :=
  r.type = IRRType.SIMPLE ∨
    ∃ p, r.target = make_calltarget ctx (generate_deferred_routestring ctx p) []

theorem dict_lookup_update_self (ps : List (String × String)) (k v : String) :
    dict_lookup (dict_update ps k v) k = some v := by
  induction ps with
  | nil => simp [dict_update, dict_lookup]
  | cons kv rest ih =>
    obtain ⟨k0, v0⟩ := kv
    by_cases h : k0 = k
    · simp [dict_update, dict_lookup, h]
    · simp [dict_update, dict_lookup, h, ih]

theorem make_calltarget_target_ok (ctx : VisitorCtx) (s : String)
    (ps : List (String × String)) :
    target_ok ctx.session_id (make_calltarget ctx s ps) := by
  right
  exact dict_lookup_update_self ps "x_eventphone_id" ctx.session_id

theorem generate_simple_routing_target_shape (ctx : VisitorCtx) (n : Extension)
    (t : CallTarget) (h : generate_simple_routing_target ctx n = .ok t) :
    ∃ s ps, t = make_calltarget ctx s ps := by
  unfold generate_simple_routing_target at h
  split at h
  · exact ⟨_, _, (Except.ok.injEq _ _).mp h.symm⟩
  · split at h
    · cases h
    · exact ⟨_, _, (Except.ok.injEq _ _).mp h.symm⟩

theorem cache_insert_mem (cache : Cache) (k : String) (v : IntermediateRoutingResult)
    (kv : String × IntermediateRoutingResult) (h : kv ∈ cache_insert cache k v) :
    kv = (k, v) ∨ kv ∈ cache := by
  induction cache with
  | nil =>
    simp [cache_insert] at h
    exact Or.inl h
  | cons kv0 rest ih =>
    obtain ⟨k0, v0⟩ := kv0
    by_cases hk : k0 = k
    · simp [cache_insert, hk] at h
      rcases h with h | h
      · exact Or.inl h
      · exact Or.inr (List.mem_cons_of_mem _ h)
    · simp [cache_insert, hk] at h
      rcases h with h | h
      · exact Or.inr (by simp [h])
      · rcases ih h with h1 | h1
        · exact Or.inl h1
        · exact Or.inr (List.mem_cons_of_mem _ h1)

theorem cache_intermediate_result_wf (ctx : VisitorCtx) (cache : Cache)
    (r : IntermediateRoutingResult) (hc : cache_wf ctx cache)
    (hr : result_shape ctx r) :
    cache_wf ctx (cache_intermediate_result cache r) := by
  unfold cache_intermediate_result
  split
  · exact hc
  · rename_i hns
    intro kv hkv
    rcases cache_insert_mem _ _ _ _ hkv with h | h
    · subst h
      rcases hr with hs | ⟨p, hp⟩
      · exact absurd hs hns
      · refine ⟨rfl, ?_, ⟨p, ?_⟩⟩
        · cases htype : r.type with
          | SIMPLE => exact absurd htype hns
          | FORK => rfl
        · rw [hp]
          rfl
    · exact hc kv h

theorem cache_intermediate_result_ok (sid : String) (cache : Cache)
    (r : IntermediateRoutingResult) (hc : cache_ok sid cache) (hr : irr_ok sid r) :
    cache_ok sid (cache_intermediate_result cache r) := by
  unfold cache_intermediate_result
  split
  · exact hc
  · intro kv hkv
    rcases cache_insert_mem _ _ _ _ hkv with h | h
    · subst h
      exact hr
    · exact hc kv h

theorem drop_separator_is_pseudo (s : String) :
    is_pseudo_target ⟨"|drop=" ++ s, []⟩ := by
  cases s
  rfl

theorem next_separator_is_pseudo (s : String) :
    is_pseudo_target ⟨"|next=" ++ s, []⟩ := by
  cases s
  rfl

theorem bare_separator_is_pseudo : is_pseudo_target ⟨"|", []⟩ := rfl

/-- What the recursive visits inside the loops guarantee on success:
cache invariants are preserved, the result has the documented shape,
SIMPLE results carry no fork targets, and every target is
session-stamped or pseudo. -/
def child_good (ctx : VisitorCtx)
    (vc : Extension → Cache → Except PyError (IntermediateRoutingResult × Cache)) : Prop :=
  ∀ e cache r cache', vc e cache = .ok (r, cache') →
    (cache_wf ctx cache → cache_wf ctx cache') ∧
    (cache_ok ctx.session_id cache → cache_ok ctx.session_id cache') ∧
    result_shape ctx r ∧
    (r.type = IRRType.SIMPLE → r.fork_targets = []) ∧
    irr_ok ctx.session_id r

theorem route_members_loop_props (ctx : VisitorCtx)
    (vc : Extension → Cache → Except PyError (IntermediateRoutingResult × Cache))
    (hvc : child_good ctx vc) :
    ∀ (ms : List MemberT) (ft : List CallTarget) (cache : Cache)
      (ft' : List CallTarget) (cache' : Cache),
      route_members_loop vc ms ft cache = .ok (ft', cache') →
      (cache_wf ctx cache → cache_wf ctx cache') ∧
      (cache_ok ctx.session_id cache → cache_ok ctx.session_id cache') ∧
      (∀ t ∈ ft', t ∈ ft ∨ target_ok ctx.session_id t) ∧
      (∃ d, ft' = ft ++ d) ∧
      ((∀ m ∈ ms, m.1 = false) → ft' = ft ∧ cache' = cache) ∧
      ((∃ m ∈ ms, m.1 = true) → ft.length < ft'.length) := by
  intro ms
  induction ms with
  | nil =>
    intro ft cache ft' cache' h
    simp only [route_members_loop, Except.ok.injEq, Prod.mk.injEq] at h
    obtain ⟨h1, h2⟩ := h
    subst h1
    subst h2
    refine ⟨fun hc => hc, fun hc => hc, fun t ht => Or.inl ht, ⟨[], by simp⟩,
      fun _ => ⟨rfl, rfl⟩, fun he => ?_⟩
    simp at he
  | cons m rest ih =>
    intro ft cache ft' cache' h
    obtain ⟨active, mty, mext⟩ := m
    cases active with
    | false =>
      simp only [route_members_loop, Bool.false_eq_true, if_false] at h
      obtain ⟨w1, w2, w3, w4, w5, w6⟩ := ih ft cache ft' cache' h
      refine ⟨w1, w2, w3, w4, fun hall => w5 (fun m hm => hall m (List.mem_cons_of_mem _ hm)),
        fun hex => ?_⟩
      rcases hex with ⟨m, hm, hma⟩
      rcases List.mem_cons.mp hm with h1 | h1
      · rw [h1] at hma
        simp at hma
      · exact w6 ⟨m, h1, hma⟩
    | true =>
      simp only [route_members_loop, if_true] at h
      cases mext with
      | none => cases h
      | some e =>
        dsimp only at h
        cases hve : vc e cache with
        | error err => rw [hve] at h; cases h
        | ok p =>
          obtain ⟨mr, cache1⟩ := p
          rw [hve] at h
          cases hsp : mty.is_special_calltype with
          | true => rw [hsp] at h; simp at h
          | false =>
            rw [hsp] at h
            simp only [Bool.false_eq_true, if_false] at h
            obtain ⟨g1, g2, g3, g4, g5⟩ := hvc e cache mr cache1 hve
            obtain ⟨w1, w2, w3, w4, w5, w6⟩ := ih _ _ ft' cache' h
            have hwf : cache_wf ctx cache → cache_wf ctx (cache_intermediate_result cache1 mr) :=
              fun hc => cache_intermediate_result_wf ctx cache1 mr (g1 hc) g3
            have hok : cache_ok ctx.session_id cache →
                cache_ok ctx.session_id (cache_intermediate_result cache1 mr) :=
              fun hc => cache_intermediate_result_ok ctx.session_id cache1 mr (g2 hc) g5
            refine ⟨fun hc => w1 (hwf hc), fun hc => w2 (hok hc), ?_, ?_, ?_, ?_⟩
            · intro t ht
              rcases w3 t ht with h1 | h1
              · rcases List.mem_append.mp h1 with h2 | h2
                · exact Or.inl h2
                · right
                  rw [List.mem_singleton.mp h2]
                  exact g5 mr.target (List.mem_cons_self _ _)
              · exact Or.inr h1
            · obtain ⟨d, hd⟩ := w4
              exact ⟨mr.target :: d, by simp [hd]⟩
            · intro hall
              have := hall (true, mty, some e) (List.mem_cons_self _ _)
              simp at this
            · intro _
              obtain ⟨d, hd⟩ := w4
              rw [hd]
              simp

theorem route_ranks_loop_props (ctx : VisitorCtx)
    (vc : Extension → Cache → Except PyError (IntermediateRoutingResult × Cache))
    (hvc : child_good ctx vc) (fd : Nat) :
    ∀ (rks : List RankT) (ft : List CallTarget) (acc : Nat) (cache : Cache)
      (ft' : List CallTarget) (acc2 : Nat) (cache' : Cache),
      route_ranks_loop vc fd rks ft acc cache = .ok (ft', acc2, cache') →
      (cache_wf ctx cache → cache_wf ctx cache') ∧
      (cache_ok ctx.session_id cache → cache_ok ctx.session_id cache') ∧
      (∀ t ∈ ft', t ∈ ft ∨ target_ok ctx.session_id t) ∧
      (∃ d, ft' = ft ++ d) ∧
      (ft = [] → (∀ rk ∈ rks, ∀ m ∈ rk.2.2, m.1 = false) → ft' = [] ∧ cache' = cache) ∧
      ((ft ≠ [] ∨ ∃ rk ∈ rks, ∃ m ∈ rk.2.2, m.1 = true) → ft' ≠ []) := by
  intro rks
  induction rks with
  | nil =>
    intro ft acc cache ft' acc2 cache' h
    simp only [route_ranks_loop, Except.ok.injEq, Prod.mk.injEq] at h
    obtain ⟨h1, _, h3⟩ := h
    subst h1
    subst h3
    refine ⟨fun hc => hc, fun hc => hc, fun t ht => Or.inl ht, ⟨[], by simp⟩,
      fun he _ => ⟨he, rfl⟩, fun hd => ?_⟩
    rcases hd with hd | ⟨rk, hrk, _⟩
    · exact hd
    · simp at hrk
  | cons rk rest ih =>
    intro ft acc cache ft' acc2 cache' h
    obtain ⟨mode, delay, ms⟩ := rk
    cases ft with
    | nil =>
      simp only [route_ranks_loop, List.isEmpty_nil, if_true] at h
      cases hm : route_members_loop vc ms [] cache with
      | error err => rw [hm] at h; cases h
      | ok p =>
        obtain ⟨ft1, cache1⟩ := p
        rw [hm] at h
        obtain ⟨m1, m2, m3, m4, m5, m6⟩ := route_members_loop_props ctx vc hvc ms [] cache ft1 cache1 hm
        obtain ⟨w1, w2, w3, w4, w5, w6⟩ := ih ft1 acc cache1 ft' acc2 cache' h
        refine ⟨fun hc => w1 (m1 hc), fun hc => w2 (m2 hc), ?_, ?_, ?_, ?_⟩
        · intro t ht
          rcases w3 t ht with h1 | h1
          · rcases m3 t h1 with h2 | h2
            · simp at h2
            · exact Or.inr h2
          · exact Or.inr h1
        · obtain ⟨d1, hd1⟩ := m4
          obtain ⟨d2, hd2⟩ := w4
          exact ⟨d1 ++ d2, by simp [hd2, hd1]⟩
        · intro _ hall
          have hhead : ∀ m ∈ ms, m.1 = false :=
            fun m hm2 => hall (mode, delay, ms) (List.mem_cons_self _ _) m hm2
          obtain ⟨he1, he2⟩ := m5 hhead
          subst he1
          subst he2
          exact w5 rfl (fun rk2 hrk2 => hall rk2 (List.mem_cons_of_mem _ hrk2))
        · intro hd
          rcases hd with hd | ⟨rk2, hrk2, m, hmm, hma⟩
          · exact absurd rfl hd
          · rcases List.mem_cons.mp hrk2 with h1 | h1
            · subst h1
              have : (0 : Nat) < ft1.length := by
                simpa using m6 ⟨m, hmm, hma⟩
              exact w6 (Or.inl (List.ne_nil_of_length_pos this))
            · exact w6 (Or.inr ⟨rk2, h1, m, hmm, hma⟩)
    | cons t0 ftr =>
      simp only [route_ranks_loop, List.isEmpty_cons, Bool.false_eq_true, if_false] at h
      cases mode with
      | DROP =>
        dsimp only at h
        by_cases hbr : fd ≤ acc + delay
        · rw [if_pos hbr] at h
          simp only [Except.ok.injEq, Prod.mk.injEq] at h
          obtain ⟨h1, _, h3⟩ := h
          subst h1
          subst h3
          exact ⟨fun hc => hc, fun hc => hc, fun t ht => Or.inl ht, ⟨[], by simp⟩,
            fun he => absurd he (by simp), fun _ => by simp⟩
        · rw [if_neg hbr] at h
          cases hm : route_members_loop vc ms
              (t0 :: ftr ++ [CallTarget.mk ("|drop=" ++ toString delay) []]) cache with
          | error err => rw [hm] at h; cases h
          | ok p =>
            obtain ⟨ft1, cache1⟩ := p
            rw [hm] at h
            obtain ⟨m1, m2, m3, m4, m5, m6⟩ :=
              route_members_loop_props ctx vc hvc ms _ cache ft1 cache1 hm
            obtain ⟨w1, w2, w3, w4, w5, w6⟩ := ih ft1 _ cache1 ft' acc2 cache' h
            refine ⟨fun hc => w1 (m1 hc), fun hc => w2 (m2 hc), ?_, ?_,
              fun he => absurd he (by simp), fun _ => ?_⟩
            · intro t ht
              rcases w3 t ht with h1 | h1
              · rcases m3 t h1 with h2 | h2
                · rcases List.mem_append.mp h2 with h3 | h3
                  · exact Or.inl h3
                  · right
                    left
                    rw [List.mem_singleton.mp h3]
                    exact drop_separator_is_pseudo (toString delay)
                · exact Or.inr h2
              · exact Or.inr h1
            · obtain ⟨d1, hd1⟩ := m4
              obtain ⟨d2, hd2⟩ := w4
              refine ⟨[CallTarget.mk ("|drop=" ++ toString delay) []] ++ d1 ++ d2, ?_⟩
              rw [hd2, hd1]
              simp
            · obtain ⟨d1, hd1⟩ := m4
              obtain ⟨d2, hd2⟩ := w4
              apply w6
              left
              rw [hd1]
              simp
      | NEXT =>
        dsimp only at h
        by_cases hbr : fd ≤ acc + delay
        · rw [if_pos hbr] at h
          simp only [Except.ok.injEq, Prod.mk.injEq] at h
          obtain ⟨h1, _, h3⟩ := h
          subst h1
          subst h3
          exact ⟨fun hc => hc, fun hc => hc, fun t ht => Or.inl ht, ⟨[], by simp⟩,
            fun he => absurd he (by simp), fun _ => by simp⟩
        · rw [if_neg hbr] at h
          cases hm : route_members_loop vc ms
              (t0 :: ftr ++ [CallTarget.mk ("|next=" ++ toString delay) []]) cache with
          | error err => rw [hm] at h; cases h
          | ok p =>
            obtain ⟨ft1, cache1⟩ := p
            rw [hm] at h
            obtain ⟨m1, m2, m3, m4, m5, m6⟩ :=
              route_members_loop_props ctx vc hvc ms _ cache ft1 cache1 hm
            obtain ⟨w1, w2, w3, w4, w5, w6⟩ := ih ft1 _ cache1 ft' acc2 cache' h
            refine ⟨fun hc => w1 (m1 hc), fun hc => w2 (m2 hc), ?_, ?_,
              fun he => absurd he (by simp), fun _ => ?_⟩
            · intro t ht
              rcases w3 t ht with h1 | h1
              · rcases m3 t h1 with h2 | h2
                · rcases List.mem_append.mp h2 with h3 | h3
                  · exact Or.inl h3
                  · right
                    left
                    rw [List.mem_singleton.mp h3]
                    exact next_separator_is_pseudo (toString delay)
                · exact Or.inr h2
              · exact Or.inr h1
            · obtain ⟨d1, hd1⟩ := m4
              obtain ⟨d2, hd2⟩ := w4
              refine ⟨[CallTarget.mk ("|next=" ++ toString delay) []] ++ d1 ++ d2, ?_⟩
              rw [hd2, hd1]
              simp
            · obtain ⟨d1, hd1⟩ := m4
              obtain ⟨d2, hd2⟩ := w4
              apply w6
              left
              rw [hd1]
              simp
      | PARALLEL =>
        dsimp only at h
        by_cases hbr : fd ≤ acc
        · rw [if_pos hbr] at h
          simp only [Except.ok.injEq, Prod.mk.injEq] at h
          obtain ⟨h1, _, h3⟩ := h
          subst h1
          subst h3
          exact ⟨fun hc => hc, fun hc => hc, fun t ht => Or.inl ht, ⟨[], by simp⟩,
            fun he => absurd he (by simp), fun _ => by simp⟩
        · rw [if_neg hbr] at h
          cases hm : route_members_loop vc ms
              (t0 :: ftr ++ [CallTarget.mk "|" []]) cache with
          | error err => rw [hm] at h; cases h
          | ok p =>
            obtain ⟨ft1, cache1⟩ := p
            rw [hm] at h
            obtain ⟨m1, m2, m3, m4, m5, m6⟩ :=
              route_members_loop_props ctx vc hvc ms _ cache ft1 cache1 hm
            obtain ⟨w1, w2, w3, w4, w5, w6⟩ := ih ft1 _ cache1 ft' acc2 cache' h
            refine ⟨fun hc => w1 (m1 hc), fun hc => w2 (m2 hc), ?_, ?_,
              fun he => absurd he (by simp), fun _ => ?_⟩
            · intro t ht
              rcases w3 t ht with h1 | h1
              · rcases m3 t h1 with h2 | h2
                · rcases List.mem_append.mp h2 with h3 | h3
                  · exact Or.inl h3
                  · right
                    left
                    rw [List.mem_singleton.mp h3]
                    exact bare_separator_is_pseudo
                · exact Or.inr h2
              · exact Or.inr h1
            · obtain ⟨d1, hd1⟩ := m4
              obtain ⟨d2, hd2⟩ := w4
              refine ⟨[CallTarget.mk "|" []] ++ d1 ++ d2, ?_⟩
              rw [hd2, hd1]
              simp
            · obtain ⟨d1, hd1⟩ := m4
              obtain ⟨d2, hd2⟩ := w4
              apply w6
              left
              rw [hd1]
              simp

theorem fork_result_props (ctx : VisitorCtx) (lp : List Nat) (ft2 : List CallTarget)
    (hfts : ∀ t ∈ ft2, target_ok ctx.session_id t) :
    result_shape ctx (make_intermediate_result
      (make_calltarget ctx (generate_deferred_routestring ctx lp) []) (some ft2)) ∧
    ((make_intermediate_result
      (make_calltarget ctx (generate_deferred_routestring ctx lp) []) (some ft2)).type =
        IRRType.SIMPLE →
      (make_intermediate_result
        (make_calltarget ctx (generate_deferred_routestring ctx lp) []) (some ft2)).fork_targets = []) ∧
    irr_ok ctx.session_id (make_intermediate_result
      (make_calltarget ctx (generate_deferred_routestring ctx lp) []) (some ft2)) := by
  refine ⟨Or.inr ⟨lp, rfl⟩, fun hab => by simp [make_intermediate_result] at hab, ?_⟩
  intro t ht
  rcases List.mem_cons.mp ht with h1 | h1
  · subst h1
    exact make_calltarget_target_ok ctx _ _
  · exact hfts t h1

theorem visit_props (ctx : VisitorCtx) :
    ∀ (fuel : Nat) (n : Extension) (path : List Nat) (cache : Cache)
      (r : IntermediateRoutingResult) (cache' : Cache),
      visit_for_route_calculation ctx fuel n path cache = .ok (r, cache') →
      (cache_wf ctx cache → cache_wf ctx cache') ∧
      (cache_ok ctx.session_id cache → cache_ok ctx.session_id cache') ∧
      result_shape ctx r ∧
      (r.type = IRRType.SIMPLE → r.fork_targets = []) ∧
      irr_ok ctx.session_id r := by
  intro fuel
  induction fuel with
  | zero =>
    intro n path cache r cache' h
    cases h
  | succ fuel ih =>
    intro n path cache r cache' h
    have hvc : child_good ctx
        (fun e c => visit_for_route_calculation ctx fuel e (path ++ [n.id]) c) :=
      fun e c r0 c0 he => ih e (path ++ [n.id]) c r0 c0 he
    simp only [visit_for_route_calculation] at h
    cases him : n.immediate_forward with
    | true =>
      rw [if_pos (by simp [him])] at h
      cases hfe : n.forwarding_extension with
      | none => rw [hfe] at h; cases h
      | some f =>
        rw [hfe] at h
        dsimp only at h
        exact ih f (path ++ [n.id]) cache r cache' h
    | false =>
      rw [if_neg (by simp [him])] at h
      by_cases hsr : node_has_simple_routing (fuel + 1) n = some true
      · rw [if_pos hsr] at h
        cases hg : generate_simple_routing_target ctx n with
        | error e => rw [hg] at h; cases h
        | ok t =>
          rw [hg] at h
          dsimp only at h
          obtain ⟨h1, h2⟩ := (Prod.mk.injEq _ _ _ _).mp ((Except.ok.injEq _ _).mp h)
          subst h1
          subst h2
          obtain ⟨s, ps, hts⟩ := generate_simple_routing_target_shape ctx n t hg
          refine ⟨fun hc => hc, fun hc => hc, Or.inl rfl, fun _ => rfl, ?_⟩
          intro t0 ht0
          rcases List.mem_cons.mp ht0 with h1 | h1
          · subst h1
            subst hts
            exact make_calltarget_target_ok ctx _ _
          · simp [make_intermediate_result] at h1
      · rw [if_neg hsr] at h
        cases hrr : route_ranks_loop
            (fun e c => visit_for_route_calculation ctx fuel e (path ++ [n.id]) c)
            n.forwarding_delay n.callgroup_ranks [] 0 cache with
        | error e => rw [hrr] at h; cases h
        | ok p =>
          obtain ⟨ft, acc, cache1⟩ := p
          rw [hrr] at h
          dsimp only at h
          obtain ⟨r1, r2, r3, r4, r5, r6⟩ :=
            route_ranks_loop_props ctx _ hvc n.forwarding_delay n.callgroup_ranks
              [] 0 cache ft acc cache1 hrr
          have hftok : ∀ t ∈ ft, target_ok ctx.session_id t := by
            intro t ht
            rcases r3 t ht with h1 | h1
            · simp at h1
            · exact h1
          -- the MULTIRING prepend
          by_cases hmt : n.type = ExtType.MULTIRING
          · rw [if_pos hmt] at h
            cases hg : generate_simple_routing_target ctx n with
            | error e =>
              rw [hg] at h
              dsimp only [Except.map] at h
              cases h
            | ok tg =>
              rw [hg] at h
              dsimp only [Except.map] at h
              obtain ⟨s, ps, hts⟩ := generate_simple_routing_target_shape ctx n tg hg
              have hft1ok : ∀ t ∈ tg :: ft, target_ok ctx.session_id t := by
                intro t ht
                rcases List.mem_cons.mp ht with h1 | h1
                · subst h1
                  subst hts
                  exact make_calltarget_target_ok ctx _ _
                · exact hftok t h1
              by_cases hen : n.forwarding_mode = FwdMode.ENABLED
              · rw [if_pos hen] at h
                cases hfe : n.forwarding_extension with
                | none => rw [hfe] at h; cases h
                | some f =>
                  rw [hfe] at h
                  dsimp only at h
                  cases hv2 : visit_for_route_calculation ctx fuel f (path ++ [n.id]) cache1 with
                  | error e => rw [hv2] at h; cases h
                  | ok q =>
                    obtain ⟨fr, cache2⟩ := q
                    rw [hv2] at h
                    dsimp only at h
                    obtain ⟨h1, h2⟩ := (Prod.mk.injEq _ _ _ _).mp ((Except.ok.injEq _ _).mp h)
                    subst h1
                    subst h2
                    obtain ⟨g1, g2, g3, g4, g5⟩ := ih f (path ++ [n.id]) cache1 fr cache2 hv2
                    have hfts : ∀ t ∈ (tg :: ft) ++
                        [CallTarget.mk ("|drop=" ++
                          toString ((n.forwarding_delay : Int) - (acc : Int))) [], fr.target],
                        target_ok ctx.session_id t := by
                      intro t ht
                      rcases List.mem_append.mp ht with h1 | h1
                      · exact hft1ok t h1
                      · rcases List.mem_cons.mp h1 with h2 | h2
                        · subst h2
                          exact Or.inl (drop_separator_is_pseudo _)
                        · rw [List.mem_singleton.mp h2]
                          exact g5 fr.target (List.mem_cons_self _ _)
                    obtain ⟨f1, f2, f3⟩ := fork_result_props ctx (path ++ [n.id]) _ hfts
                    exact ⟨fun hc => cache_intermediate_result_wf ctx cache2 fr (g1 (r1 hc)) g3,
                      fun hc => cache_intermediate_result_ok ctx.session_id cache2 fr
                        (g2 (r2 hc)) g5, f1, f2, f3⟩
              · rw [if_neg hen] at h
                obtain ⟨h1, h2⟩ := (Prod.mk.injEq _ _ _ _).mp ((Except.ok.injEq _ _).mp h)
                subst h1
                subst h2
                obtain ⟨f1, f2, f3⟩ := fork_result_props ctx (path ++ [n.id]) _ hft1ok
                exact ⟨r1, r2, f1, f2, f3⟩
          · rw [if_neg hmt] at h
            dsimp only at h
            by_cases hen : n.forwarding_mode = FwdMode.ENABLED
            · rw [if_pos hen] at h
              cases hfe : n.forwarding_extension with
              | none => rw [hfe] at h; cases h
              | some f =>
                rw [hfe] at h
                dsimp only at h
                cases hv2 : visit_for_route_calculation ctx fuel f (path ++ [n.id]) cache1 with
                | error e => rw [hv2] at h; cases h
                | ok q =>
                  obtain ⟨fr, cache2⟩ := q
                  rw [hv2] at h
                  dsimp only at h
                  obtain ⟨h1, h2⟩ := (Prod.mk.injEq _ _ _ _).mp ((Except.ok.injEq _ _).mp h)
                  subst h1
                  subst h2
                  obtain ⟨g1, g2, g3, g4, g5⟩ := ih f (path ++ [n.id]) cache1 fr cache2 hv2
                  have hfts : ∀ t ∈ ft ++
                      [CallTarget.mk ("|drop=" ++
                        toString ((n.forwarding_delay : Int) - (acc : Int))) [], fr.target],
                      target_ok ctx.session_id t := by
                    intro t ht
                    rcases List.mem_append.mp ht with h1 | h1
                    · exact hftok t h1
                    · rcases List.mem_cons.mp h1 with h2 | h2
                      · subst h2
                        exact Or.inl (drop_separator_is_pseudo _)
                      · rw [List.mem_singleton.mp h2]
                        exact g5 fr.target (List.mem_cons_self _ _)
                  obtain ⟨f1, f2, f3⟩ := fork_result_props ctx (path ++ [n.id]) _ hfts
                  exact ⟨fun hc => cache_intermediate_result_wf ctx cache2 fr (g1 (r1 hc)) g3,
                    fun hc => cache_intermediate_result_ok ctx.session_id cache2 fr
                      (g2 (r2 hc)) g5, f1, f2, f3⟩
            · rw [if_neg hen] at h
              obtain ⟨h1, h2⟩ := (Prod.mk.injEq _ _ _ _).mp ((Except.ok.injEq _ _).mp h)
              subst h1
              subst h2
              obtain ⟨f1, f2, f3⟩ := fork_result_props ctx (path ++ [n.id]) _ hftok
              exact ⟨r1, r2, f1, f2, f3⟩

/-! ## C10: the deferred-result cache invariant -/

/-- C10: for every entry of the deferred-result cache produced by the
compiler, the key is exactly the cached result's own synthetic target
string, the cached result is a FORK (no SIMPLE result is ever stored),
and the key is a deferred-route label (a `lateroute/stage1-<sessionId>-`
path string). -/
theorem c10_cache_entries_well_formed (ctx : VisitorCtx) (fuel : Nat) (target : Extension)
    (r : IntermediateRoutingResult) (cache : Cache)
    (h : visitor_calculate_routing ctx fuel target = .ok (r, cache)) :
    ∀ kv ∈ cache, kv.1 = kv.2.target.target ∧ kv.2.type = IRRType.FORK ∧
      ∃ p, kv.1 = generate_deferred_routestring ctx p := by
  intro kv hkv
  exact (visit_props ctx fuel target [] [] r cache h).1
    (fun kv2 hkv2 => absurd hkv2 (List.not_mem_nil _)) kv hkv

/-- The cached sub-result of `g2` in the `g1` compilation. -/
def g2IRR : IntermediateRoutingResult :=
  ⟨IRRType.FORK, ⟨"lateroute/stage1-sid-1-2", [("x_eventphone_id", "sid")]⟩, [tgtA]⟩

/-- The top-level result of the `g1` compilation. -/
def g1IRR : IntermediateRoutingResult :=
  ⟨IRRType.FORK, ⟨"lateroute/stage1-sid-1", [("x_eventphone_id", "sid")]⟩,
    [⟨"lateroute/stage1-sid-1-2", [("x_eventphone_id", "sid")]⟩]⟩

/-- Witness for C10: the invariant evaluated on the concrete nested-group
compilation, whose cache holds exactly the deferred `g2` FORK. -/
theorem c10_cache_entries_well_formed_witness :
    ("lateroute/stage1-sid-1-2", g2IRR).1 = ("lateroute/stage1-sid-1-2", g2IRR).2.target.target ∧
    ("lateroute/stage1-sid-1-2", g2IRR).2.type = IRRType.FORK ∧
    ∃ p, ("lateroute/stage1-sid-1-2", g2IRR).1 = generate_deferred_routestring ctx0 p :=
  c10_cache_entries_well_formed ctx0 3 g1 g1IRR [("lateroute/stage1-sid-1-2", g2IRR)] rfl
    ("lateroute/stage1-sid-1-2", g2IRR) (List.mem_singleton.mpr rfl)

/-! ## C8: session stamping of produced targets -/

/-- C8 (corrected): one routing computation uses the single session
identifier of the visitor, and every non-separator target the compiler
materializes — the top-level and synthetic targets and every target
inside every cached deferred result — carries
`x_eventphone_id = <sessionId>`; but the ringback media-play target
injected by the orchestrator carries only its three `fork.*` parameters
and no `x_eventphone_id` at all. -/
theorem c8_session_stamping :
    (∀ (ctx : VisitorCtx) (fuel : Nat) (target : Extension)
      (r : IntermediateRoutingResult) (cache : Cache),
      visitor_calculate_routing ctx fuel target = .ok (r, cache) →
      (∀ t ∈ irr_targets r, ¬ is_pseudo_target t →
        dict_lookup t.parameters "x_eventphone_id" = some ctx.session_id) ∧
      (∀ kv ∈ cache, ∀ t ∈ irr_targets kv.2, ¬ is_pseudo_target t →
        dict_lookup t.parameters "x_eventphone_id" = some ctx.session_id)) ∧
    (∀ path : String,
      dict_lookup (make_ringback_target path).parameters "x_eventphone_id" = none) := by
  constructor
  · intro ctx fuel target r cache h
    obtain ⟨_, hok, _, _, hr⟩ := visit_props ctx fuel target [] [] r cache h
    have hcache : cache_ok ctx.session_id cache :=
      hok (fun kv hkv => absurd hkv (List.not_mem_nil _))
    constructor
    · intro t ht hnp
      rcases hr t ht with h1 | h1
      · exact absurd h1 hnp
      · exact h1
    · intro kv hkv t ht hnp
      rcases hcache kv hkv t ht with h1 | h1
      · exact absurd h1 hnp
      · exact h1
  · intro path
    rfl

/-- Witness for C8: the stamping guarantee evaluated on the nested-group
compilation: the synthetic top-level target and the member target inside
the cached deferred result all carry the session id. -/
theorem c8_session_stamping_witness :
    dict_lookup g1IRR.target.parameters "x_eventphone_id" = some ctx0.session_id ∧
    dict_lookup tgtA.parameters "x_eventphone_id" = some ctx0.session_id := by
  have h := (c8_session_stamping.1 ctx0 3 g1 g1IRR
    [("lateroute/stage1-sid-1-2", g2IRR)] rfl)
  refine ⟨h.1 g1IRR.target (List.mem_cons_self _ _) (by decide), ?_⟩
  exact h.2 ("lateroute/stage1-sid-1-2", g2IRR) (List.mem_singleton.mpr rfl) tgtA
    (List.mem_cons_of_mem _ (List.mem_singleton.mpr rfl)) (by decide)

/-- C8 counterexample: in the orchestrated routing of `rbNode` (whose
ringback file exists), the injected ringback media-play leaf is the first
fork target of the final program, is no separator pseudo-target, and does
not carry `x_eventphone_id`. -/
theorem c8_ringback_leaf_unstamped :
    calculate_routing ctx0 settings0 2 rbNode =
      .ok (⟨IRRType.FORK, ⟨"fork", [("x_eventphone_id", "sid")]⟩,
            [rbTarget, ⟨"lateroute/stage2-500", [("x_eventphone_id", "sid")]⟩]⟩, []) ∧
    ¬ is_pseudo_target rbTarget ∧
    dict_lookup rbTarget.parameters "x_eventphone_id" = none :=
  ⟨rfl, by decide, rfl⟩

/-! ## C9: the result-shape invariant, corrected -/

/-- C9 (corrected): SIMPLE results never carry fork targets and every
cached result is a FORK, but a materialized FORK can be empty: for a
complex (non-simple, non-immediate-forward) node the compiled
`fork_targets` sequence is non-empty exactly when the node is MULTIRING,
or has an ENABLED (delayed) forward, or has at least one active callgroup
member; a GROUP with no active members and no ENABLED forward compiles to
a FORK with an empty fork-target sequence.  The orchestrator's ringback
step returns SIMPLE results unchanged, so it preserves the SIMPLE half of
the invariant. -/
theorem c9_result_shape (ctx : VisitorCtx) :
    (∀ (fuel : Nat) (target : Extension) (r : IntermediateRoutingResult) (cache : Cache),
      visitor_calculate_routing ctx fuel target = .ok (r, cache) →
      (r.type = IRRType.SIMPLE → r.fork_targets = []) ∧
      (∀ kv ∈ cache, kv.2.type = IRRType.FORK)) ∧
    (∀ (fuel : Nat) (n : Extension) (path : List Nat) (cache : Cache)
      (r : IntermediateRoutingResult) (cache' : Cache),
      n.immediate_forward = false →
      node_has_simple_routing (fuel + 1) n ≠ some true →
      visit_for_route_calculation ctx (fuel + 1) n path cache = .ok (r, cache') →
      (r.fork_targets ≠ [] ↔
        (n.type = ExtType.MULTIRING ∨ n.forwarding_mode = FwdMode.ENABLED ∨
          ∃ rk ∈ n.callgroup_ranks, ∃ m ∈ rk.2.2, m.1 = true))) ∧
    (∀ (settings : Settings) (rb : Option String) (r : IntermediateRoutingResult),
      (provide_ringback settings rb r).type = IRRType.SIMPLE →
      provide_ringback settings rb r = r) := by
  refine ⟨?_, ?_, ?_⟩
  · intro fuel target r cache h
    obtain ⟨hwf, _, _, hsimple, _⟩ := visit_props ctx fuel target [] [] r cache h
    exact ⟨hsimple, fun kv hkv =>
      (hwf (fun kv2 hkv2 => absurd hkv2 (List.not_mem_nil _)) kv hkv).2.1⟩
  · intro fuel n path cache r cache' him hsr h
    have hvc : child_good ctx
        (fun e c => visit_for_route_calculation ctx fuel e (path ++ [n.id]) c) :=
      fun e c r0 c0 he => visit_props ctx fuel e (path ++ [n.id]) c r0 c0 he
    simp only [visit_for_route_calculation] at h
    rw [if_neg (by simp [him])] at h
    rw [if_neg hsr] at h
    cases hrr : route_ranks_loop
        (fun e c => visit_for_route_calculation ctx fuel e (path ++ [n.id]) c)
        n.forwarding_delay n.callgroup_ranks [] 0 cache with
    | error e => rw [hrr] at h; cases h
    | ok p =>
      obtain ⟨ft, acc, cache1⟩ := p
      rw [hrr] at h
      dsimp only at h
      obtain ⟨r1, r2, r3, r4, r5, r6⟩ :=
        route_ranks_loop_props ctx _ hvc n.forwarding_delay n.callgroup_ranks
          [] 0 cache ft acc cache1 hrr
      by_cases hmt : n.type = ExtType.MULTIRING
      · rw [if_pos hmt] at h
        cases hg : generate_simple_routing_target ctx n with
        | error e =>
          rw [hg] at h
          dsimp only [Except.map] at h
          cases h
        | ok tg =>
          rw [hg] at h
          dsimp only [Except.map] at h
          by_cases hen : n.forwarding_mode = FwdMode.ENABLED
          · rw [if_pos hen] at h
            cases hfe : n.forwarding_extension with
            | none => rw [hfe] at h; cases h
            | some f =>
              rw [hfe] at h
              dsimp only at h
              cases hv2 : visit_for_route_calculation ctx fuel f (path ++ [n.id]) cache1 with
              | error e => rw [hv2] at h; cases h
              | ok q =>
                obtain ⟨fr, cache2⟩ := q
                rw [hv2] at h
                dsimp only at h
                obtain ⟨h1, h2⟩ := (Prod.mk.injEq _ _ _ _).mp ((Except.ok.injEq _ _).mp h)
                subst h1
                exact ⟨fun _ => Or.inl hmt, fun _ => by simp [make_intermediate_result]⟩
          · rw [if_neg hen] at h
            obtain ⟨h1, h2⟩ := (Prod.mk.injEq _ _ _ _).mp ((Except.ok.injEq _ _).mp h)
            subst h1
            exact ⟨fun _ => Or.inl hmt, fun _ => by simp [make_intermediate_result]⟩
      · rw [if_neg hmt] at h
        dsimp only at h
        by_cases hen : n.forwarding_mode = FwdMode.ENABLED
        · rw [if_pos hen] at h
          cases hfe : n.forwarding_extension with
          | none => rw [hfe] at h; cases h
          | some f =>
            rw [hfe] at h
            dsimp only at h
            cases hv2 : visit_for_route_calculation ctx fuel f (path ++ [n.id]) cache1 with
            | error e => rw [hv2] at h; cases h
            | ok q =>
              obtain ⟨fr, cache2⟩ := q
              rw [hv2] at h
              dsimp only at h
              obtain ⟨h1, h2⟩ := (Prod.mk.injEq _ _ _ _).mp ((Except.ok.injEq _ _).mp h)
              subst h1
              exact ⟨fun _ => Or.inr (Or.inl hen), fun _ => by simp [make_intermediate_result]⟩
        · rw [if_neg hen] at h
          obtain ⟨h1, h2⟩ := (Prod.mk.injEq _ _ _ _).mp ((Except.ok.injEq _ _).mp h)
          subst h1
          constructor
          · intro hne
            right
            right
            by_contra hnex
            apply hne
            have hall : ∀ rk ∈ n.callgroup_ranks, ∀ m ∈ rk.2.2, m.1 = false := by
              intro rk hrk m hm
              by_contra hmac
              exact hnex ⟨rk, hrk, m, hm, by
                cases hma : m.1 with
                | true => rfl
                | false => exact absurd hma hmac⟩
            have := (r5 rfl hall).1
            simp [make_intermediate_result, this]
          · intro hdis
            rcases hdis with h1 | h1 | h1
            · exact absurd h1 hmt
            · exact absurd h1 hen
            · have : ft ≠ [] := r6 (Or.inr h1)
              simpa [make_intermediate_result] using this
  · intro settings rb r
    cases rb with
    | none => intro _; rfl
    | some rbf =>
      simp only [provide_ringback]
      by_cases hf : settings.is_file (settings.ringback_top_directory ++ "/" ++ rbf) = true
      · rw [if_pos hf]
        by_cases hs : r.is_simple = true
        · rw [if_pos hs]
          intro habs
          simp at habs
        · rw [if_neg hs]
          intro htype
          exfalso
          apply hs
          have hrt : r.type = IRRType.SIMPLE := htype
          simp [IntermediateRoutingResult.is_simple, hrt]
      · rw [if_neg hf]
        intro _
        rfl

/-- Witness for C9: the corrected invariant evaluated concretely — the
cached nested-group entry is a FORK; the two-rank GROUP scenario has a
non-empty fork iff one of the three structural sources of fork elements
is present; a SIMPLE result passes unchanged through the ringback step. -/
theorem c9_result_shape_witness :
    g2IRR.type = IRRType.FORK ∧
    (([tgtA, ⟨"|", []⟩, tgtB, tgtC] : List CallTarget) ≠ [] ↔
      ((c1Node 30).type = ExtType.MULTIRING ∨
        (c1Node 30).forwarding_mode = FwdMode.ENABLED ∨
        ∃ rk ∈ (c1Node 30).callgroup_ranks, ∃ m ∈ rk.2.2, m.1 = true)) ∧
    provide_ringback settings0 none (make_intermediate_result tgtA none) =
      make_intermediate_result tgtA none := by
  refine ⟨?_, ?_, ?_⟩
  · exact ((c9_result_shape ctx0).1 3 g1 g1IRR [("lateroute/stage1-sid-1-2", g2IRR)] rfl).2
      ("lateroute/stage1-sid-1-2", g2IRR) (List.mem_singleton.mpr rfl)
  · exact (c9_result_shape ctx0).2.1 1 (c1Node 30) [] []
      ⟨IRRType.FORK, ⟨"lateroute/stage1-sid-1", [("x_eventphone_id", "sid")]⟩,
        [tgtA, ⟨"|", []⟩, tgtB, tgtC]⟩ [] (by decide) (by decide) rfl
  · exact (c9_result_shape ctx0).2.2 settings0 none (make_intermediate_result tgtA none) rfl

/-! ## C2: the accumulated-delay cutoff -/

/-- A local EXTERNAL member extension with number `i`. -/
def ext_member (i : Nat) : Extension := .mk i i .EXTERNAL .DISABLED 0 none [] 1 none

/-- An active, non-special member wrapping `ext_member i`. -/
def c2_member (i : Nat) : MemberT := (true, MemberType.standard, some (ext_member i))

/-- The target `ext_member i` compiles to under `ctx0`. -/
def c2_member_target (i : Nat) : CallTarget :=
  ⟨"lateroute/stage2-" ++ toString i, [("x_eventphone_id", "sid")]⟩

/-- Build a callgroup rank from a mode, a delay and member numbers. -/
def c2_rank (r : RankMode × Nat × List Nat) : RankT :=
  (r.1, r.2.1, r.2.2.map c2_member)

/-- The C2 scenario family: a GROUP node (never simple) with stored
forwarding delay `fd` and the given ranks of active, simple, local
members. -/
def c2_node (fd : Nat) (rs : List (RankMode × Nat × List Nat)) : Extension :=
  .mk 0 0 .GROUP .DISABLED fd none (rs.map c2_rank) 1 none

/-- The DROP/NEXT delay a rank's separator contributes; PARALLEL adds
nothing. -/
def rank_delay (mode : RankMode) (delay : Nat) : Nat :=
  match mode with
  | .DROP => delay
  | .NEXT => delay
  | .PARALLEL => 0

/-- The separator pseudo-target generated before a rank, from that rank's
own mode. -/
def rank_separator (mode : RankMode) (delay : Nat) : CallTarget :=
  match mode with
  | .DROP => ⟨"|drop=" ++ toString delay, []⟩
  | .NEXT => ⟨"|next=" ++ toString delay, []⟩
  | .PARALLEL => ⟨"|", []⟩

/-- The fork contribution of the ranks after the first, as the claim
describes it: before each rank its separator (encoded from that rank's
mode), with DROP/NEXT delays accumulating, and everything from the first
rank whose accumulated delay reaches `fd` onwards omitted. -/
def expected_tail (fd : Nat) (acc : Nat) : List (RankMode × Nat × List Nat) → List CallTarget
  | [] => []
  | (mode, delay, ms) :: rest =>
    let acc1 := acc + rank_delay mode delay
    if fd ≤ acc1 then []
    else rank_separator mode delay :: (ms.map c2_member_target ++ expected_tail fd acc1 rest)

/-- The full expected fork sequence: the first rank contributes its
members without a separator and without accumulating its delay; later
ranks contribute via `expected_tail`. -/
def expected_fork (fd : Nat) : List (RankMode × Nat × List Nat) → List CallTarget
  | [] => []
  | (_, _, ms) :: rest => ms.map c2_member_target ++ expected_tail fd 0 rest

theorem c2_member_visit (i : Nat) (path : List Nat) (cache : Cache) :
    visit_for_route_calculation ctx0 1 (ext_member i) path cache =
      .ok (make_intermediate_result (c2_member_target i) none, cache) := rfl

theorem c2_members_loop (lp : List Nat) :
    ∀ (ms : List Nat) (ft : List CallTarget) (cache : Cache),
      route_members_loop (fun e c => visit_for_route_calculation ctx0 1 e lp c)
        (ms.map c2_member) ft cache = .ok (ft ++ ms.map c2_member_target, cache) := by
  intro ms
  induction ms with
  | nil =>
    intro ft cache
    simp [route_members_loop]
  | cons i rest ih =>
    intro ft cache
    show route_members_loop _
      ((true, MemberType.standard, some (ext_member i)) :: rest.map c2_member) ft cache = _
    rw [route_members_loop]
    simp only [if_true]
    rw [c2_member_visit i lp cache]
    rw [show (MemberType.standard).is_special_calltype = false from rfl]
    simp only [Bool.false_eq_true, if_false]
    rw [show cache_intermediate_result cache
          (make_intermediate_result (c2_member_target i) none) = cache from rfl]
    rw [ih (ft ++ [(make_intermediate_result (c2_member_target i) none).target]) cache]
    simp [make_intermediate_result]

theorem c2_ranks_loop (fd : Nat) (lp : List Nat) :
    ∀ (rs : List (RankMode × Nat × List Nat)) (t0 : CallTarget) (ftr : List CallTarget)
      (acc : Nat) (cache : Cache),
      ∃ acc2,
        route_ranks_loop (fun e c => visit_for_route_calculation ctx0 1 e lp c) fd
          (rs.map c2_rank) (t0 :: ftr) acc cache =
        .ok ((t0 :: ftr) ++ expected_tail fd acc rs, acc2, cache) := by
  intro rs
  induction rs with
  | nil =>
    intro t0 ftr acc cache
    exact ⟨acc, by simp [route_ranks_loop, expected_tail]⟩
  | cons r rest ih =>
    intro t0 ftr acc cache
    obtain ⟨mode, delay, ms⟩ := r
    show ∃ acc2, route_ranks_loop _ fd
      ((mode, delay, ms.map c2_member) :: rest.map c2_rank) (t0 :: ftr) acc cache = _
    simp only [route_ranks_loop, List.isEmpty_cons, Bool.false_eq_true, if_false]
    cases mode with
    | DROP =>
      dsimp only
      by_cases hbr : fd ≤ acc + delay
      · rw [if_pos hbr]
        refine ⟨acc + delay, ?_⟩
        rw [show expected_tail fd acc ((RankMode.DROP, delay, ms) :: rest) = [] from by
          simp [expected_tail, rank_delay, hbr]]
        simp
      · rw [if_neg hbr]
        rw [c2_members_loop lp ms (t0 :: ftr ++ [CallTarget.mk ("|drop=" ++ toString delay) []]) cache]
        obtain ⟨acc2, hrec⟩ := ih t0 (ftr ++ [CallTarget.mk ("|drop=" ++ toString delay) []] ++
          ms.map c2_member_target) (acc + delay) cache
        refine ⟨acc2, ?_⟩
        rw [show (t0 :: ftr ++ [CallTarget.mk ("|drop=" ++ toString delay) []]) ++
              ms.map c2_member_target =
            t0 :: (ftr ++ [CallTarget.mk ("|drop=" ++ toString delay) []] ++
              ms.map c2_member_target) from by simp]
        dsimp only
        rw [hrec]
        rw [show expected_tail fd acc ((RankMode.DROP, delay, ms) :: rest) =
            CallTarget.mk ("|drop=" ++ toString delay) [] ::
              (ms.map c2_member_target ++ expected_tail fd (acc + delay) rest) from by
          simp [expected_tail, rank_delay, rank_separator, hbr]]
        simp
    | NEXT =>
      dsimp only
      by_cases hbr : fd ≤ acc + delay
      · rw [if_pos hbr]
        refine ⟨acc + delay, ?_⟩
        rw [show expected_tail fd acc ((RankMode.NEXT, delay, ms) :: rest) = [] from by
          simp [expected_tail, rank_delay, hbr]]
        simp
      · rw [if_neg hbr]
        rw [c2_members_loop lp ms (t0 :: ftr ++ [CallTarget.mk ("|next=" ++ toString delay) []]) cache]
        obtain ⟨acc2, hrec⟩ := ih t0 (ftr ++ [CallTarget.mk ("|next=" ++ toString delay) []] ++
          ms.map c2_member_target) (acc + delay) cache
        refine ⟨acc2, ?_⟩
        rw [show (t0 :: ftr ++ [CallTarget.mk ("|next=" ++ toString delay) []]) ++
              ms.map c2_member_target =
            t0 :: (ftr ++ [CallTarget.mk ("|next=" ++ toString delay) []] ++
              ms.map c2_member_target) from by simp]
        dsimp only
        rw [hrec]
        rw [show expected_tail fd acc ((RankMode.NEXT, delay, ms) :: rest) =
            CallTarget.mk ("|next=" ++ toString delay) [] ::
              (ms.map c2_member_target ++ expected_tail fd (acc + delay) rest) from by
          simp [expected_tail, rank_delay, rank_separator, hbr]]
        simp
    | PARALLEL =>
      dsimp only
      by_cases hbr : fd ≤ acc
      · rw [if_pos hbr]
        refine ⟨acc, ?_⟩
        rw [show expected_tail fd acc ((RankMode.PARALLEL, delay, ms) :: rest) = [] from by
          simp [expected_tail, rank_delay, hbr]]
        simp
      · rw [if_neg hbr]
        rw [c2_members_loop lp ms (t0 :: ftr ++ [CallTarget.mk "|" []]) cache]
        obtain ⟨acc2, hrec⟩ := ih t0 (ftr ++ [CallTarget.mk "|" []] ++
          ms.map c2_member_target) acc cache
        refine ⟨acc2, ?_⟩
        rw [show (t0 :: ftr ++ [CallTarget.mk "|" []]) ++ ms.map c2_member_target =
            t0 :: (ftr ++ [CallTarget.mk "|" []] ++ ms.map c2_member_target) from by simp]
        dsimp only
        rw [hrec]
        rw [show expected_tail fd acc ((RankMode.PARALLEL, delay, ms) :: rest) =
            CallTarget.mk "|" [] ::
              (ms.map c2_member_target ++ expected_tail fd acc rest) from by
          simp [expected_tail, rank_delay, rank_separator, hbr]]
        simp

/-- C2: during fork compilation of a non-simple node, later ranks are
omitted from the fork exactly when the accumulated DROP/NEXT separator
delay reaches or exceeds the node's `forwarding_delay`: for the scenario
family `c2_node` (a GROUP of active, simple, local members, first rank
non-empty), the compiled fork sequence equals `expected_fork`, which
includes every rank strictly before the cutoff (with its separator and
all its members) and omits everything from the first rank whose
accumulated delay reaches the forwarding delay onwards — the second and
third conjuncts state this inclusion/omission boundary of
`expected_tail` explicitly. -/
theorem c2_delay_cutoff (fd : Nat) (rs : List (RankMode × Nat × List Nat))
    (hfirst : ∀ r ∈ rs.take 1, r.2.2 ≠ []) :
    (visit_for_route_calculation ctx0 2 (c2_node fd rs) [] [] =
      .ok (⟨IRRType.FORK, ⟨"lateroute/stage1-sid-0", [("x_eventphone_id", "sid")]⟩,
            expected_fork fd rs⟩, [])) ∧
    (∀ (mode : RankMode) (delay : Nat) (ms : List Nat)
      (rest : List (RankMode × Nat × List Nat)) (acc : Nat),
      fd ≤ acc + rank_delay mode delay →
      expected_tail fd acc ((mode, delay, ms) :: rest) = []) ∧
    (∀ (mode : RankMode) (delay : Nat) (ms : List Nat)
      (rest : List (RankMode × Nat × List Nat)) (acc : Nat),
      acc + rank_delay mode delay < fd →
      expected_tail fd acc ((mode, delay, ms) :: rest) =
        rank_separator mode delay ::
          (ms.map c2_member_target ++ expected_tail fd (acc + rank_delay mode delay) rest)) := by
  refine ⟨?_, ?_, ?_⟩
  · cases rs with
    | nil =>
      have h1 : visit_for_route_calculation ctx0 2 (c2_node fd []) [] [] =
          .ok (make_intermediate_result
            (make_calltarget ctx0 (generate_deferred_routestring ctx0 ([] ++ [0])) [])
            (some (expected_fork fd [])), []) := rfl
      rw [h1, show generate_deferred_routestring ctx0 ([] ++ [0]) =
        "lateroute/stage1-sid-0" from rfl]
      rfl
    | cons r rest =>
      obtain ⟨mode, delay, ms⟩ := r
      have hms : ms ≠ [] := hfirst (mode, delay, ms) (by simp)
      obtain ⟨m0, mrest, rfl⟩ : ∃ m0 mr, ms = m0 :: mr := by
        cases ms with
        | nil => exact absurd rfl hms
        | cons m0 mr => exact ⟨m0, mr, rfl⟩
      rw [visit_for_route_calculation]
      rw [if_neg (show ¬((c2_node fd ((mode, delay, m0 :: mrest) :: rest)).immediate_forward
        = true) from by
        simp [c2_node, Extension.immediate_forward, Extension.forwarding_mode])]
      rw [if_neg (show ¬(node_has_simple_routing 2
          (c2_node fd ((mode, delay, m0 :: mrest) :: rest)) = some true) from by
        simp [node_has_simple_routing, c2_node, Extension.type, Extension.immediate_forward,
          Extension.forwarding_mode, Extension.has_active_group_members])]
      rw [show (c2_node fd ((mode, delay, m0 :: mrest) :: rest)).id = 0 from rfl]
      rw [show (c2_node fd ((mode, delay, m0 :: mrest) :: rest)).forwarding_delay = fd from rfl]
      have hmem := c2_members_loop ([] ++ [0]) (m0 :: mrest) [] []
      obtain ⟨acc2, hrnk⟩ := c2_ranks_loop fd ([] ++ [0])
        rest (c2_member_target m0) (mrest.map c2_member_target) 0 []
      have hloop : route_ranks_loop
          (fun e c => visit_for_route_calculation ctx0 1 e ([] ++ [0]) c) fd
          ((c2_node fd ((mode, delay, m0 :: mrest) :: rest)).callgroup_ranks) [] 0 [] =
          .ok ((m0 :: mrest).map c2_member_target ++ expected_tail fd 0 rest, acc2, []) := by
        show route_ranks_loop _ fd
          ((mode, delay, (m0 :: mrest).map c2_member) :: rest.map c2_rank) [] 0 [] = _
        simp only [route_ranks_loop, List.isEmpty_nil, if_true]
        rw [hmem]
        dsimp only
        simp only [List.nil_append, List.map_cons] at hrnk ⊢
        rw [hrnk]
      rw [hloop]
      rw [show generate_deferred_routestring ctx0 ([] ++ [0]) =
        "lateroute/stage1-sid-0" from rfl]
      rfl
  · intro mode delay ms rest acc hcut
    simp [expected_tail, hcut]
  · intro mode delay ms rest acc hcut
    simp [expected_tail, Nat.not_le_of_lt hcut, rank_separator]

/-- Witness for C2: a four-rank GROUP with forwarding delay 13 — the
second rank (NEXT 7) and third rank (PARALLEL) ring, but the fourth rank
(DROP 9) pushes the accumulated delay to 16 ≥ 13 and is omitted together
with its separator. -/
theorem c2_delay_cutoff_witness :
    visit_for_route_calculation ctx0 2
      (c2_node 13 [(RankMode.DROP, 5, [101]), (RankMode.NEXT, 7, [102]),
        (RankMode.PARALLEL, 0, [103]), (RankMode.DROP, 9, [104])]) [] [] =
      .ok (⟨IRRType.FORK, ⟨"lateroute/stage1-sid-0", [("x_eventphone_id", "sid")]⟩,
            expected_fork 13 [(RankMode.DROP, 5, [101]), (RankMode.NEXT, 7, [102]),
              (RankMode.PARALLEL, 0, [103]), (RankMode.DROP, 9, [104])]⟩, []) ∧
    expected_fork 13 [(RankMode.DROP, 5, [101]), (RankMode.NEXT, 7, [102]),
        (RankMode.PARALLEL, 0, [103]), (RankMode.DROP, 9, [104])] =
      [⟨"lateroute/stage2-101", [("x_eventphone_id", "sid")]⟩,
       ⟨"|next=7", []⟩, ⟨"lateroute/stage2-102", [("x_eventphone_id", "sid")]⟩,
       ⟨"|", []⟩, ⟨"lateroute/stage2-103", [("x_eventphone_id", "sid")]⟩] :=
  ⟨(c2_delay_cutoff 13 [(RankMode.DROP, 5, [101]), (RankMode.NEXT, 7, [102]),
      (RankMode.PARALLEL, 0, [103]), (RankMode.DROP, 9, [104])] (by decide)).1,
   by decide⟩

/-! ## C7: the depth bound -/

/-- A pure forwarding chain of length `L`: extension `i` forwards
immediately to `i + 1` for `i < L`; extension `L` is the plain end of the
chain. -/
def chain_db (L : Nat) : Db := fun i =>
  if i < L then ⟨i, .SIMPLE, .ENABLED, 0, some (i + 1), []⟩
  else ⟨i, .SIMPLE, .DISABLED, 0, none, []⟩

theorem chain_db_ext (L k : Nat) : (chain_db L k).ext = k := by
  unfold chain_db
  split <;> rfl

theorem chain_visit_failed (L : Nat) :
    ∀ (fuel i : Nat) (path : List Nat) (st : DiscoState), i ≤ L →
      (∀ j ∈ path, j ≤ i ∨ L < j) →
      ((discovery_visit (chain_db L) fuel (chain_db L i) path st).2).failed =
        (st.failed || decide (fuel ≤ L - i)) := by
  intro fuel
  induction fuel with
  | zero =>
    intro i path st hi hpath
    simp [discovery_visit]
  | succ fuel ih =>
    intro i path st hi hpath
    by_cases hlt : i < L
    · have hrec : chain_db L i = ⟨i, .SIMPLE, .ENABLED, 0, some (i + 1), []⟩ := by
        unfold chain_db
        rw [if_pos hlt]
      rw [discovery_visit, hrec]
      dsimp only
      rw [if_pos (show ExtType.SIMPLE ≠ ExtType.EXTERNAL ∧
        FwdMode.ENABLED ≠ FwdMode.DISABLED from by decide)]
      rw [if_neg (show ¬((ExtType.SIMPLE = ExtType.GROUP ∨ ExtType.SIMPLE = ExtType.MULTIRING) ∧
        (FwdMode.ENABLED ≠ FwdMode.ENABLED ∨ 0 < 0)) from by decide)]
      dsimp only [Option.map]
      have hnotmem : ¬((chain_db L (i + 1)).ext ∈ path ++ [i]) := by
        rw [chain_db_ext]
        intro hmem
        rcases List.mem_append.mp hmem with hmem | hmem
        · rcases hpath _ hmem with hj | hj <;> omega
        · rcases List.mem_singleton.mp hmem with hj
          omega
      rw [if_neg hnotmem]
      have hih := ih (i + 1) (path ++ [i]) st (by omega) ?side
      case side =>
        intro j hj
        rcases List.mem_append.mp hj with hj | hj
        · rcases hpath _ hj with h1 | h1
          · exact Or.inl (by omega)
          · exact Or.inr h1
        · rcases List.mem_singleton.mp hj with h1
          exact Or.inl (by omega)
      dsimp only [discovery_ranks_loop]
      rw [show (discovery_visit (chain_db L) fuel (chain_db L (i + 1)) (path ++ [i]) st).2 =
        (discovery_visit (chain_db L) fuel (chain_db L (i + 1)) (path ++ [i]) st).2 from rfl]
      cases hsplit : discovery_visit (chain_db L) fuel (chain_db L (i + 1)) (path ++ [i]) st with
      | mk child st1 =>
        dsimp only
        have : st1.failed = (st.failed || decide (fuel ≤ L - (i + 1))) := by
          rw [← hih, hsplit]
        rw [this]
        congr 1
        rw [decide_eq_decide]
        omega
    · have hieq : i = L := by omega
      rw [hieq]
      have hrec : chain_db L L = ⟨L, .SIMPLE, .DISABLED, 0, none, []⟩ := by
        unfold chain_db
        rw [if_neg (by omega)]
      rw [discovery_visit, hrec]
      dsimp only
      rw [if_neg (show ¬(ExtType.SIMPLE ≠ ExtType.EXTERNAL ∧
        FwdMode.DISABLED ≠ FwdMode.DISABLED) from by decide)]
      rw [if_neg (show ¬((ExtType.SIMPLE = ExtType.GROUP ∨ ExtType.SIMPLE = ExtType.MULTIRING) ∧
        (FwdMode.DISABLED ≠ FwdMode.ENABLED ∨ 0 < 0)) from by decide)]
      dsimp only [discovery_ranks_loop]
      simp

/-- C7: discovery fails a branch precisely at the depth bound.  A visit
with exhausted depth budget (fuel 0, i.e. `depth >= max_depth`) records
`failed := true`, appends a depth-limit log entry, and materializes the
node as a leaf — nothing of that branch is resolved or descended.  With
the default `max_depth = 10` and the root at depth 0, discovering a pure
forwarding chain of length `L` fails exactly when `L ≥ 10`: in
particular a chain of length `max_depth - 1 = 9` succeeds. -/
theorem c7_depth_bound :
    (∀ (db : Db) (n : DbExt) (path : List Nat) (st : DiscoState),
      discovery_visit db 0 n path st =
        (DNode.mk n.ext n.forwarding_mode none [],
          { st with failed := true, log := st.log ++ [LogEntry.depth_limit n.ext] })) ∧
    (∀ L : Nat,
      ((discover_tree (chain_db L) (chain_db L 0) [L + 1] 10).2).failed =
        decide (10 ≤ L)) := by
  constructor
  · intro db n path st
    rfl
  · intro L
    have h := chain_visit_failed L 10 0 [L + 1] ⟨false, false, []⟩ (by omega) ?side
    case side =>
      intro j hj
      rcases List.mem_singleton.mp hj with h1
      exact Or.inr (by omega)
    unfold discover_tree
    rw [h]
    simp

/-! ## C6: cycle elimination -/

/-- Discovery only ever appends to the log and never clears the pruned
flag. -/
def state_mono (st st2 : DiscoState) : Prop :=
  (∃ d, st2.log = st.log ++ d) ∧ (st.pruned = true → st2.pruned = true)

theorem state_mono_refl (st : DiscoState) : state_mono st st :=
  ⟨⟨[], by simp⟩, fun h => h⟩

theorem state_mono_trans {st1 st2 st3 : DiscoState}
    (h1 : state_mono st1 st2) (h2 : state_mono st2 st3) : state_mono st1 st3 := by
  obtain ⟨⟨d1, hd1⟩, hp1⟩ := h1
  obtain ⟨⟨d2, hd2⟩, hp2⟩ := h2
  exact ⟨⟨d1 ++ d2, by rw [hd2, hd1, List.append_assoc]⟩, fun h => hp2 (hp1 h)⟩

theorem discovery_members_loop_mono
    (vc : DbExt → DiscoState → DNode × DiscoState) (db : Db) (pl : List Nat)
    (hvc : ∀ f s, state_mono s ((vc f s).2)) :
    ∀ (ms : List (Bool × Nat)) (st : DiscoState),
      state_mono st ((discovery_members_loop vc db pl ms st).2) := by
  intro ms
  induction ms with
  | nil => intro st; exact state_mono_refl st
  | cons m rest ih =>
    intro st
    obtain ⟨active, mext⟩ := m
    cases active with
    | false =>
      simp only [discovery_members_loop, Bool.false_eq_true, if_false]
      exact ih st
    | true =>
      simp only [discovery_members_loop, if_true]
      by_cases hmem : (db mext).ext ∈ pl
      · rw [if_pos hmem]
        exact state_mono_trans
          ⟨⟨[LogEntry.member_pruned (db mext).ext pl], rfl⟩, fun _ => rfl⟩
          (ih ⟨st.failed, true, st.log ++ [LogEntry.member_pruned (db mext).ext pl]⟩)
      · rw [if_neg hmem]
        exact state_mono_trans (hvc (db mext) st) (ih ((vc (db mext) st).2))

theorem discovery_ranks_loop_mono
    (vc : DbExt → DiscoState → DNode × DiscoState) (db : Db) (pl : List Nat)
    (hvc : ∀ f s, state_mono s ((vc f s).2)) :
    ∀ (rks : List (List (Bool × Nat))) (st : DiscoState),
      state_mono st ((discovery_ranks_loop vc db pl rks st).2) := by
  intro rks
  induction rks with
  | nil => intro st; exact state_mono_refl st
  | cons rk rest ih =>
    intro st
    simp only [discovery_ranks_loop]
    exact state_mono_trans (discovery_members_loop_mono vc db pl hvc rk st)
      (ih ((discovery_members_loop vc db pl rk st).2))

theorem discovery_visit_mono (db : Db) :
    ∀ (fuel : Nat) (n : DbExt) (path : List Nat) (st : DiscoState),
      state_mono st ((discovery_visit db fuel n path st).2) := by
  intro fuel
  induction fuel with
  | zero =>
    intro n path st
    exact ⟨⟨[LogEntry.depth_limit n.ext], rfl⟩, fun h => h⟩
  | succ fuel ih =>
    intro n path st
    have hvc : ∀ f s, state_mono s
        ((discovery_visit db fuel f (path ++ [n.ext]) s).2) :=
      fun f s => ih f (path ++ [n.ext]) s
    rw [discovery_visit]
    dsimp only
    split
    · rename_i f hf
      split
      · exact state_mono_trans
          ⟨⟨[LogEntry.fwd_pruned f.ext (path ++ [n.ext])], rfl⟩, fun _ => rfl⟩
          (discovery_ranks_loop_mono _ db (path ++ [n.ext]) hvc _
            ⟨st.failed, true, st.log ++ [LogEntry.fwd_pruned f.ext (path ++ [n.ext])]⟩)
      · exact state_mono_trans (ih f (path ++ [n.ext]) st)
          (discovery_ranks_loop_mono _ db (path ++ [n.ext]) hvc _
            ((discovery_visit db fuel f (path ++ [n.ext]) st).2))
    · exact discovery_ranks_loop_mono _ db (path ++ [n.ext]) hvc _ st

theorem discovery_members_loop_child
    (vc : DbExt → DiscoState → DNode × DiscoState) (db : Db) (pl : List Nat) :
    ∀ (ms : List (Bool × Nat)) (st : DiscoState) (a : Bool) (me : Nat) (c : DNode),
      (a, me, some c) ∈ (discovery_members_loop vc db pl ms st).1 →
      ∃ f st0, f.ext ∉ pl ∧ me = f.ext ∧ c = (vc f st0).1 := by
  intro ms
  induction ms with
  | nil =>
    intro st a me c h
    simp [discovery_members_loop] at h
  | cons m rest ih =>
    intro st a me c h
    obtain ⟨active, mext⟩ := m
    cases active with
    | false =>
      simp only [discovery_members_loop, Bool.false_eq_true, if_false] at h
      rcases List.mem_cons.mp h with h1 | h1
      · cases h1
      · exact ih _ _ _ _ h1
    | true =>
      simp only [discovery_members_loop, if_true] at h
      by_cases hmem : (db mext).ext ∈ pl
      · rw [if_pos hmem] at h
        rcases List.mem_cons.mp h with h1 | h1
        · cases h1
        · exact ih _ _ _ _ h1
      · rw [if_neg hmem] at h
        rcases List.mem_cons.mp h with h1 | h1
        · simp only [Prod.mk.injEq, Option.some.injEq] at h1
          obtain ⟨ha, hme, hc⟩ := h1
          exact ⟨db mext, st, hmem, hme, hc⟩
        · exact ih _ _ _ _ h1

theorem discovery_ranks_loop_child
    (vc : DbExt → DiscoState → DNode × DiscoState) (db : Db) (pl : List Nat) :
    ∀ (rks : List (List (Bool × Nat))) (st : DiscoState)
      (rk : List (Bool × Nat × Option DNode)) (a : Bool) (me : Nat) (c : DNode),
      rk ∈ (discovery_ranks_loop vc db pl rks st).1 →
      (a, me, some c) ∈ rk →
      ∃ f st0, f.ext ∉ pl ∧ me = f.ext ∧ c = (vc f st0).1 := by
  intro rks
  induction rks with
  | nil =>
    intro st rk a me c h
    simp [discovery_ranks_loop] at h
  | cons rk0 rest ih =>
    intro st rk a me c h hm
    simp only [discovery_ranks_loop] at h
    rcases List.mem_cons.mp h with h1 | h1
    · subst h1
      exact discovery_members_loop_child vc db pl rk0 st a me c hm
    · exact ih _ _ _ _ _ h1 hm

theorem npath_head (t : DNode) (l : List Nat) (h : NPath t l) :
    ∃ r, l = t.ext :: r := by
  cases h with
  | here => exact ⟨[], rfl⟩
  | via_fwd _ c l2 _ _ => exact ⟨l2, rfl⟩
  | via_member _ rk a me c l2 _ _ _ => exact ⟨l2, rfl⟩

theorem discovery_visit_root_ext (db : Db) (fuel : Nat) (n : DbExt)
    (path : List Nat) (st : DiscoState) :
    ((discovery_visit db fuel n path st).1).ext = n.ext := by
  cases fuel with
  | zero => rfl
  | succ fuel =>
    rw [discovery_visit]
    dsimp only
    split
    · split <;> rfl
    · rfl

theorem npath_child_step (db : Db) (fuel : Nat) (path : List Nat) (n : DbExt)
    (f : DbExt) (st0 : DiscoState) (l2 : List Nat)
    (hIH : ∀ (m : DbExt) (p : List Nat) (s : DiscoState) (l : List Nat),
      NPath ((discovery_visit db fuel m p s).1) l →
      l.Nodup ∧ ∀ x ∈ l.tail, x ∉ p ++ [m.ext])
    (hfnot : f.ext ∉ path ++ [n.ext])
    (hc2 : NPath ((discovery_visit db fuel f (path ++ [n.ext]) st0).1) l2) :
    (n.ext :: l2).Nodup ∧ ∀ x ∈ (n.ext :: l2).tail, x ∉ path ++ [n.ext] := by
  obtain ⟨nd2, htail2⟩ := hIH f (path ++ [n.ext]) st0 l2 hc2
  obtain ⟨r, hr⟩ := npath_head _ l2 hc2
  rw [discovery_visit_root_ext] at hr
  have hnmem : n.ext ∈ path ++ [n.ext] := List.mem_append_right _ (List.mem_singleton.mpr rfl)
  constructor
  · rw [List.nodup_cons]
    refine ⟨?_, nd2⟩
    rw [hr]
    intro hmem
    rcases List.mem_cons.mp hmem with h1 | h1
    · exact hfnot (h1 ▸ hnmem)
    · have := htail2 n.ext (by rw [hr, List.tail_cons]; exact h1)
      exact this (List.mem_append_left _ hnmem)
  · intro x hx
    rw [List.tail_cons] at hx
    rw [hr] at hx
    rcases List.mem_cons.mp hx with h1 | h1
    · rw [h1]
      exact hfnot
    · have := htail2 x (by rw [hr, List.tail_cons]; exact h1)
      intro hmem
      exact this (List.mem_append_left _ hmem)

theorem discovery_visit_npath (db : Db) :
    ∀ (fuel : Nat) (n : DbExt) (path : List Nat) (st : DiscoState) (l : List Nat),
      NPath ((discovery_visit db fuel n path st).1) l →
      l.Nodup ∧ ∀ x ∈ l.tail, x ∉ path ++ [n.ext] := by
  intro fuel
  induction fuel with
  | zero =>
    intro n path st l h
    rw [discovery_visit] at h
    dsimp only at h
    cases h with
    | here => simp
    | via_fwd _ c l2 hfwd _ => cases hfwd
    | via_member _ rk a me c l2 hrk _ _ => simp [DNode.ranks] at hrk
  | succ fuel ih =>
    intro n path st l h
    rw [discovery_visit] at h
    dsimp only at h
    split at h
    · rename_i f hf
      split at h
      · -- forwarding cycle pruned: no forwarding child
        cases h with
        | here => simp
        | via_fwd _ c l2 hfwd hl2 => cases hfwd
        | via_member _ rk a me c l2 hrk hm hl2 =>
          obtain ⟨g, st0, hgnot, hme, hc⟩ :=
            discovery_ranks_loop_child _ db (path ++ [n.ext]) _ _ rk a me c hrk hm
          subst hc
          exact npath_child_step db fuel path n g st0 l2 ih hgnot hl2
      · -- forwarding child visited
        cases h with
        | here => simp
        | via_fwd _ c l2 hfwd hl2 =>
          rename_i hmem
          have hc : c = (discovery_visit db fuel f (path ++ [n.ext]) st).1 :=
            (Option.some.inj hfwd).symm
          subst hc
          exact npath_child_step db fuel path n f st l2 ih hmem hl2
        | via_member _ rk a me c l2 hrk hm hl2 =>
          obtain ⟨g, st0, hgnot, hme, hc⟩ :=
            discovery_ranks_loop_child _ db (path ++ [n.ext]) _ _ rk a me c hrk hm
          subst hc
          exact npath_child_step db fuel path n g st0 l2 ih hgnot hl2
    · -- no forwarding target
      cases h with
      | here => simp
      | via_fwd _ c l2 hfwd hl2 => cases hfwd
      | via_member _ rk a me c l2 hrk hm hl2 =>
        obtain ⟨g, st0, hgnot, hme, hc⟩ :=
          discovery_ranks_loop_child _ db (path ++ [n.ext]) _ _ rk a me c hrk hm
        subst hc
        exact npath_child_step db fuel path n g st0 l2 ih hgnot hl2

theorem discovery_members_loop_unfold
    (vc : DbExt → DiscoState → DNode × DiscoState) (ok : DbExt → Bool)
    (uf : DbExt → DNode) (db : Db) (pl : List Nat)
    (hvc : ∀ f s, ok f = true → (vc f s).1 = uf f ∧ ((vc f s).2).pruned = s.pruned) :
    ∀ (ms : List (Bool × Nat)) (st : DiscoState),
      no_prune_members ok db pl ms = true →
      (discovery_members_loop vc db pl ms st).1 = discovery_unfold_members uf db ms ∧
      ((discovery_members_loop vc db pl ms st).2).pruned = st.pruned := by
  intro ms
  induction ms with
  | nil =>
    intro st _
    exact ⟨rfl, rfl⟩
  | cons m rest ih =>
    intro st hnp
    obtain ⟨active, mext⟩ := m
    cases active with
    | false =>
      simp only [no_prune_members, if_true, Bool.and_eq_true] at hnp
      simp only [discovery_members_loop, Bool.false_eq_true, if_false,
        discovery_unfold_members]
      obtain ⟨h1, h2⟩ := ih st hnp.2
      exact ⟨by rw [h1], h2⟩
    | true =>
      simp only [no_prune_members, if_true] at hnp
      rw [Bool.and_eq_true, Bool.and_eq_true, decide_eq_true_eq] at hnp
      obtain ⟨⟨hnot, hok⟩, hrest⟩ := hnp
      simp only [discovery_members_loop, if_true, discovery_unfold_members]
      rw [if_neg hnot]
      obtain ⟨hv1, hv2⟩ := hvc (db mext) st hok
      obtain ⟨h1, h2⟩ := ih ((vc (db mext) st).2) hrest
      refine ⟨?_, by rw [h2, hv2]⟩
      rw [h1, hv1]

theorem discovery_ranks_loop_unfold
    (vc : DbExt → DiscoState → DNode × DiscoState) (ok : DbExt → Bool)
    (uf : DbExt → DNode) (db : Db) (pl : List Nat)
    (hvc : ∀ f s, ok f = true → (vc f s).1 = uf f ∧ ((vc f s).2).pruned = s.pruned) :
    ∀ (rks : List (List (Bool × Nat))) (st : DiscoState),
      rks.all (no_prune_members ok db pl) = true →
      (discovery_ranks_loop vc db pl rks st).1 =
        rks.map (discovery_unfold_members uf db) ∧
      ((discovery_ranks_loop vc db pl rks st).2).pruned = st.pruned := by
  intro rks
  induction rks with
  | nil =>
    intro st _
    exact ⟨rfl, rfl⟩
  | cons rk rest ih =>
    intro st hnp
    simp only [List.all_cons, Bool.and_eq_true] at hnp
    simp only [discovery_ranks_loop, List.map_cons]
    obtain ⟨h1, h2⟩ := discovery_members_loop_unfold vc ok uf db pl hvc rk st hnp.1
    obtain ⟨h3, h4⟩ := ih ((discovery_members_loop vc db pl rk st).2) hnp.2
    refine ⟨?_, by rw [h4, h2]⟩
    rw [h1, h3]

theorem discovery_visit_unfold (db : Db) :
    ∀ (fuel : Nat) (n : DbExt) (path : List Nat) (st : DiscoState),
      no_prune db fuel n path = true →
      (discovery_visit db fuel n path st).1 = discovery_unfold db fuel n ∧
      ((discovery_visit db fuel n path st).2).pruned = st.pruned := by
  intro fuel
  induction fuel with
  | zero =>
    intro n path st _
    exact ⟨rfl, rfl⟩
  | succ fuel ih =>
    intro n path st hnp
    rw [no_prune] at hnp
    rw [discovery_visit, discovery_unfold]
    have hvc : ∀ f s, no_prune db fuel f (path ++ [n.ext]) = true →
        ((discovery_visit db fuel f (path ++ [n.ext]) s).1 =
          discovery_unfold db fuel f ∧
        ((discovery_visit db fuel f (path ++ [n.ext]) s).2).pruned = s.pruned) :=
      fun f s hok => ih f (path ++ [n.ext]) s hok
    cases hfw : (if n.type ≠ ExtType.EXTERNAL ∧ n.forwarding_mode ≠ FwdMode.DISABLED then
        n.fwd_target.map db
      else none) with
    | none =>
      rw [hfw] at hnp
      dsimp only at hnp
      simp only [Bool.true_and] at hnp
      obtain ⟨h3, h4⟩ := discovery_ranks_loop_unfold _
        (fun m => no_prune db fuel m (path ++ [n.ext])) (discovery_unfold db fuel)
        db (path ++ [n.ext]) hvc _ st hnp
      dsimp only [Option.map]
      exact ⟨by rw [h3], h4⟩
    | some f =>
      rw [hfw] at hnp
      dsimp only at hnp
      simp only [Bool.and_eq_true, decide_eq_true_eq] at hnp
      obtain ⟨⟨hnot, hok⟩, hrest⟩ := hnp
      dsimp only [Option.map]
      rw [if_neg hnot]
      obtain ⟨hv1, hv2⟩ := ih f (path ++ [n.ext]) st hok
      obtain ⟨h3, h4⟩ := discovery_ranks_loop_unfold _
        (fun m => no_prune db fuel m (path ++ [n.ext])) (discovery_unfold db fuel)
        db (path ++ [n.ext]) hvc _
        ((discovery_visit db fuel f (path ++ [n.ext]) st).2) hrest
      refine ⟨?_, by rw [h4, hv2]⟩
      rw [h3, hv1]

theorem discovery_members_loop_prunes
    (vc : DbExt → DiscoState → DNode × DiscoState) (db : Db) (pl : List Nat)
    (hvc : ∀ g s, state_mono s ((vc g s).2)) :
    ∀ (pre : List (Bool × Nat)) (post : List (Bool × Nat)) (mext : Nat) (st : DiscoState),
      (db mext).ext ∈ pl →
      (((discovery_members_loop vc db pl (pre ++ (true, mext) :: post) st).2).pruned = true ∧
       LogEntry.member_pruned (db mext).ext pl ∈
         ((discovery_members_loop vc db pl (pre ++ (true, mext) :: post) st).2).log ∧
       (discovery_members_loop vc db pl (pre ++ (true, mext) :: post) st).1.get? pre.length =
         some (false, (db mext).ext, none)) := by
  intro pre
  induction pre with
  | nil =>
    intro post mext st hmem
    simp only [List.nil_append, discovery_members_loop, if_true]
    rw [if_pos hmem]
    have hmono := discovery_members_loop_mono vc db pl hvc post
      ⟨st.failed, true, st.log ++ [LogEntry.member_pruned (db mext).ext pl]⟩
    refine ⟨hmono.2 rfl, ?_, rfl⟩
    obtain ⟨d, hd⟩ := hmono.1
    rw [hd]
    exact List.mem_append_left _ (List.mem_append_right _ (List.mem_singleton.mpr rfl))
  | cons m0 pre2 ih =>
    intro post mext st hmem
    obtain ⟨a0, me0⟩ := m0
    cases a0 with
    | false =>
      simp only [List.cons_append, discovery_members_loop, Bool.false_eq_true, if_false]
      obtain ⟨h1, h2, h3⟩ := ih post mext st hmem
      exact ⟨h1, h2, by simpa using h3⟩
    | true =>
      simp only [List.cons_append, discovery_members_loop, if_true]
      by_cases hm0 : (db me0).ext ∈ pl
      · rw [if_pos hm0]
        obtain ⟨h1, h2, h3⟩ := ih post mext
          ⟨st.failed, true, st.log ++ [LogEntry.member_pruned (db me0).ext pl]⟩ hmem
        exact ⟨h1, h2, by simpa using h3⟩
      · rw [if_neg hm0]
        obtain ⟨h1, h2, h3⟩ := ih post mext ((vc (db me0) st).2) hmem
        exact ⟨h1, h2, by simpa using h3⟩

/-- C6: discovery eliminates exactly the true cycles.  (1) When the
resolved forwarding target's extension number is already on the current
path, the visit sets `pruned`, appends a log entry, forces the
materialized node's forwarding mode to DISABLED and does not descend into
the forward.  (2) When an active member's extension number is already on
the path, the member loop sets `pruned`, appends a log entry and
materializes that member as inactive with no subtree.  (3) No
root-to-node path of a materialized discovery tree repeats an extension
number.  (4) On a graph already free of cycles for this attempt
(`no_prune`, which seeds the path with the excluded caller), discovery
materializes the plain unfolding — every forwarding mode and every
member active flag exactly as loaded — and leaves the pruned flag
clear. -/
theorem c6_cycle_elimination (db : Db) :
    (∀ (fuel : Nat) (n : DbExt) (path : List Nat) (st : DiscoState) (j : Nat) (f : DbExt),
      n.type ≠ ExtType.EXTERNAL → n.forwarding_mode ≠ FwdMode.DISABLED →
      n.fwd_target = some j → db j = f → f.ext ∈ path ++ [n.ext] →
      ((discovery_visit db (fuel + 1) n path st).1.forwarding_mode = FwdMode.DISABLED ∧
       (discovery_visit db (fuel + 1) n path st).1.fwd = none ∧
       ((discovery_visit db (fuel + 1) n path st).2).pruned = true ∧
       LogEntry.fwd_pruned f.ext (path ++ [n.ext]) ∈
         ((discovery_visit db (fuel + 1) n path st).2).log)) ∧
    (∀ (vc : DbExt → DiscoState → DNode × DiscoState),
      (∀ g s, state_mono s ((vc g s).2)) →
      ∀ (pl : List Nat) (pre post : List (Bool × Nat)) (mext : Nat) (st : DiscoState),
      (db mext).ext ∈ pl →
      (((discovery_members_loop vc db pl (pre ++ (true, mext) :: post) st).2).pruned = true ∧
       LogEntry.member_pruned (db mext).ext pl ∈
         ((discovery_members_loop vc db pl (pre ++ (true, mext) :: post) st).2).log ∧
       (discovery_members_loop vc db pl (pre ++ (true, mext) :: post) st).1.get?
         pre.length = some (false, (db mext).ext, none))) ∧
    (∀ (root : DbExt) (excluded : List Nat) (max_depth : Nat) (l : List Nat),
      NPath ((discover_tree db root excluded max_depth).1) l → l.Nodup) ∧
    (∀ (root : DbExt) (excluded : List Nat) (max_depth : Nat),
      no_prune db max_depth root excluded = true →
      (discover_tree db root excluded max_depth).1 = discovery_unfold db max_depth root ∧
      ((discover_tree db root excluded max_depth).2).pruned = false) := by
  refine ⟨?_, ?_, ?_, ?_⟩
  · intro fuel n path st j f hty hfm hj hdb hmem
    rw [discovery_visit]
    dsimp only
    rw [if_pos (show n.type ≠ ExtType.EXTERNAL ∧ n.forwarding_mode ≠ FwdMode.DISABLED
      from ⟨hty, hfm⟩)]
    rw [hj]
    dsimp only [Option.map]
    rw [hdb]
    rw [if_pos hmem]
    have hmono := discovery_ranks_loop_mono
      (fun m s => discovery_visit db fuel m (path ++ [n.ext]) s) db (path ++ [n.ext])
      (fun g s => discovery_visit_mono db fuel g (path ++ [n.ext]) s)
      (if (n.type = ExtType.GROUP ∨ n.type = ExtType.MULTIRING) ∧
          (n.forwarding_mode ≠ FwdMode.ENABLED ∨ 0 < n.forwarding_delay) then
        n.ranks
      else [])
      ⟨st.failed, true, st.log ++ [LogEntry.fwd_pruned f.ext (path ++ [n.ext])]⟩
    refine ⟨rfl, rfl, hmono.2 rfl, ?_⟩
    obtain ⟨d, hd⟩ := hmono.1
    dsimp only
    rw [hd]
    exact List.mem_append_left _ (List.mem_append_right _ (List.mem_singleton.mpr rfl))
  · intro vc hvc pl pre post mext st hmem
    exact discovery_members_loop_prunes vc db pl hvc pre post mext st hmem
  · intro root excluded max_depth l h
    exact (discovery_visit_npath db max_depth root excluded _ l h).1
  · intro root excluded max_depth hnp
    obtain ⟨h1, h2⟩ := discovery_visit_unfold db max_depth root excluded
      ⟨false, false, []⟩ hnp
    exact ⟨h1, h2⟩

/-- A two-node forwarding cycle: extension 0 forwards (with delay) to 1,
which forwards back to 0. -/
def cyc_db : Db := fun i =>
  if i = 0 then ⟨0, .SIMPLE, .ENABLED, 5, some 1, []⟩
  else if i = 1 then ⟨1, .SIMPLE, .ENABLED, 5, some 0, []⟩
  else ⟨i, .SIMPLE, .DISABLED, 0, none, []⟩

/-- Witness for C6: the cycle-elimination guarantees evaluated on the
two-node cycle `cyc_db` (visiting node 1 with node 0 already on the
path), a member loop whose second member closes a cycle, a concrete
discovered path, and the prune-free two-node chain. -/
theorem c6_cycle_elimination_witness :
    ((discovery_visit cyc_db 1 (cyc_db 1) [0] ⟨false, false, []⟩).1.forwarding_mode =
        FwdMode.DISABLED ∧
      (discovery_visit cyc_db 1 (cyc_db 1) [0] ⟨false, false, []⟩).1.fwd = none ∧
      ((discovery_visit cyc_db 1 (cyc_db 1) [0] ⟨false, false, []⟩).2).pruned = true ∧
      LogEntry.fwd_pruned 0 [0, 1] ∈
        ((discovery_visit cyc_db 1 (cyc_db 1) [0] ⟨false, false, []⟩).2).log) ∧
    (((discovery_members_loop (fun f s => (discovery_unfold cyc_db 0 f, s)) cyc_db [0]
        ([(false, 7)] ++ (true, 0) :: []) ⟨false, false, []⟩).2).pruned = true ∧
      (discovery_members_loop (fun f s => (discovery_unfold cyc_db 0 f, s)) cyc_db [0]
        ([(false, 7)] ++ (true, 0) :: []) ⟨false, false, []⟩).1.get? 1 =
        some (false, 0, none)) ∧
    ([0, 1] : List Nat).Nodup ∧
    ((discover_tree (chain_db 2) (chain_db 2 0) [3] 10).2).pruned = false := by
  refine ⟨?_, ?_, ?_, ?_⟩
  · exact (c6_cycle_elimination cyc_db).1 0 (cyc_db 1) [0] ⟨false, false, []⟩ 0 (cyc_db 0)
      (by decide) (by decide) (by decide) rfl (by decide)
  · have h := (c6_cycle_elimination cyc_db).2.1
      (fun f s => (discovery_unfold cyc_db 0 f, s)) (fun g s => state_mono_refl s)
      [0] [(false, 7)] [] 0 ⟨false, false, []⟩ (by decide)
    exact ⟨h.1, h.2.2⟩
  · have ht : (discover_tree cyc_db (cyc_db 0) [7] 10).1 =
        DNode.mk 0 .ENABLED (some (DNode.mk 1 .DISABLED none [])) [] := rfl
    have hnp : NPath ((discover_tree cyc_db (cyc_db 0) [7] 10).1) [0, 1] := by
      rw [ht]
      exact NPath.via_fwd _ _ _ rfl (NPath.here (DNode.mk 1 .DISABLED none []))
    exact (c6_cycle_elimination cyc_db).2.2.1 (cyc_db 0) [7] 10 [0, 1] hnp
  · exact ((c6_cycle_elimination (chain_db 2)).2.2.2 (chain_db 2 0) [3] 10 (by decide)).2
